import Mathlib

/-!
Verification of the gauntlet CFD trading-competition backend.

Shallow embedding of the simulation core: the calculation kernel
(`app/utils/calculations.py`), the CFD engine (`app/services/cfd_engine.py`),
the portfolio manager (`app/services/portfolio_manager.py`), the trading
engine (`app/services/trading_engine.py`), the scheduler
(`app/services/scheduler.py`), the agent invoker / response parser
(`app/services/llm_invoker.py`), and the history downsampling utilities
(`app/utils/downsampling.py`).

Monetary quantities (Python `Decimal`) are modelled as exact rationals `ℚ`.
Database rows are modelled as structures, queries as explicit list
arguments, and the market-data service as an association list from symbol
to price.
-/

namespace Gauntlet

/-- Side of an open CFD position (`positions.side`): long or short. -/
inductive Side
  | long
  | short
deriving DecidableEq

/-- Side of an order (`orders.side`): buy or sell. -/
inductive OrderSide
  | buy
  | sell
deriving DecidableEq

/-! ## Calculation kernel — `app/utils/calculations.py` -/

/-- Notional value of a position (`calculate_notional_value`). -/
def calculate_notional_value (quantity price : ℚ) : ℚ :=
  quantity * price

/-- Margin required for a position (`calculate_margin_required`). -/
def calculate_margin_required (notional_value leverage : ℚ) : ℚ :=
  notional_value / leverage

/-- Unrealized P&L of a long position (`calculate_unrealized_pnl_long`). -/
def calculate_unrealized_pnl_long (quantity entry_price current_price : ℚ) : ℚ :=
  quantity * (current_price - entry_price)

/-- Unrealized P&L of a short position (`calculate_unrealized_pnl_short`). -/
def calculate_unrealized_pnl_short (quantity entry_price current_price : ℚ) : ℚ :=
  quantity * (entry_price - current_price)

/-- Unrealized P&L dispatched on the side (`calculate_unrealized_pnl`). -/
def calculate_unrealized_pnl (side : Side) (quantity entry_price current_price : ℚ) : ℚ :=
  match side with
  | .long => calculate_unrealized_pnl_long quantity entry_price current_price
  | .short => calculate_unrealized_pnl_short quantity entry_price current_price

/-- P&L as a percentage of the entry value (`calculate_pnl_percentage`). -/
def calculate_pnl_percentage (pnl entry_value : ℚ) : ℚ :=
  if entry_value = 0 then 0 else pnl / entry_value * 100

/-- Total equity (`calculate_equity`). -/
def calculate_equity (cash_balance unrealized_pnl : ℚ) : ℚ :=
  cash_balance + unrealized_pnl

/-- Margin level percentage with the 9999 sentinel (`calculate_margin_level`). -/
def calculate_margin_level (equity margin_used : ℚ) : ℚ :=
  if margin_used = 0 then 9999 else equity / margin_used * 100

/-- Current leverage ratio (`calculate_current_leverage`). -/
def calculate_current_leverage (total_notional_value equity : ℚ) : ℚ :=
  if equity = 0 then 0 else total_notional_value / equity

/-- Liquidation predicate (`check_liquidation`). -/
def check_liquidation (margin_level maintenance_margin_pct initial_margin_pct : ℚ) : Bool :=
  margin_level < maintenance_margin_pct / initial_margin_pct * 100

/-! ## Data model — `app/models/` -/

/-- Row of the `positions` table (`app/models/position.py`). -/
structure Position where
  id : ℕ
  portfolio_id : ℕ
  participant_id : ℕ
  symbol : String
  asset_class : String
  side : Side
  quantity : ℚ
  entry_price : ℚ
  current_price : ℚ
  leverage : ℚ
  margin_required : ℚ
  notional_value : ℚ
  unrealized_pnl : ℚ
  unrealized_pnl_pct : ℚ
deriving DecidableEq

/-- Row of the `portfolios` table (`app/models/portfolio.py`).
`margin_level` is nullable. -/
structure Portfolio where
  id : ℕ
  participant_id : ℕ
  cash_balance : ℚ
  equity : ℚ
  margin_used : ℚ
  margin_available : ℚ
  realized_pnl : ℚ
  unrealized_pnl : ℚ
  total_pnl : ℚ
  current_leverage : ℚ
  margin_level : Option ℚ
deriving DecidableEq

/-- Row of the `participants` table (`app/models/participant.py`),
restricted to the fields the core services touch. -/
structure Participant where
  id : ℕ
  competition_id : ℕ
  status : String
  current_equity : ℚ
  peak_equity : ℚ
  total_trades : ℕ
  winning_trades : ℕ
  losing_trades : ℕ
deriving DecidableEq

/-- Row of the `competitions` table (`app/models/competition.py`),
restricted to the fields the core services touch.  `end_time` is an
epoch timestamp. -/
structure Competition where
  id : ℕ
  status : String
  end_time : ℤ
  max_leverage : ℚ
  maintenance_margin_pct : ℚ
deriving DecidableEq

/-- Market-data service (`market_data_service.get_price`): an association
list from symbol to current price; `none` models a failed fetch. -/
def get_price (prices : List (String × ℚ)) (symbol : String) : Option ℚ :=
  (prices.find? (fun q => q.1 = symbol)).map (fun q => q.2)

/-! ## CFD engine — `app/services/cfd_engine.py` -/

/-- Result of `CFDEngine.calculate_position_metrics`. -/
structure PositionMetrics where
  notional_value : ℚ
  margin_required : ℚ
  unrealized_pnl : ℚ
  unrealized_pnl_pct : ℚ
deriving DecidableEq

/-- Mirrors `CFDEngine.calculate_position_metrics`: notional at the current
price, margin from the entry notional, unrealized P&L and its percentage
of the entry value. -/
def calculate_position_metrics (side : Side) (quantity entry_price current_price leverage : ℚ) :
    PositionMetrics :=
  let notional_value := calculate_notional_value quantity current_price
  let margin_required :=
    calculate_margin_required (calculate_notional_value quantity entry_price) leverage
  let unrealized_pnl := calculate_unrealized_pnl side quantity entry_price current_price
  let entry_value := calculate_notional_value quantity entry_price
  { notional_value := notional_value
    margin_required := margin_required
    unrealized_pnl := unrealized_pnl
    unrealized_pnl_pct := calculate_pnl_percentage unrealized_pnl entry_value }

/-- Mirrors `CFDEngine.update_position_price`: revalue a position at a new
market price.  `margin_required` is untouched. -/
def update_position_price (position : Position) (new_price : ℚ) : Position :=
  let metrics := calculate_position_metrics position.side position.quantity
    position.entry_price new_price position.leverage
  { position with
    current_price := new_price
    notional_value := metrics.notional_value
    unrealized_pnl := metrics.unrealized_pnl
    unrealized_pnl_pct := metrics.unrealized_pnl_pct }

/-- Result dictionary of `CFDEngine.close_position`. -/
structure CloseResult where
  realized_pnl : ℚ
  realized_pnl_pct : ℚ
  margin_released : ℚ
deriving DecidableEq

/-- Mirrors `CFDEngine.close_position`: a final revaluation at the closing
price; the unrealized P&L becomes realized and the frozen margin is
released.  Deletion of the row is modelled by the caller dropping the
position from its list. -/
def close_position (position : Position) (closing_price : ℚ) : CloseResult :=
  let metrics := calculate_position_metrics position.side position.quantity
    position.entry_price closing_price position.leverage
  { realized_pnl := metrics.unrealized_pnl
    realized_pnl_pct := metrics.unrealized_pnl_pct
    margin_released := position.margin_required }

/-- Mirrors `CFDEngine.open_position`: a fresh position at the entry price
with zero unrealized P&L.  The Python signature takes exactly the
parameters listed here — in particular it has no `exit_plan` parameter. -/
def open_position (pos_id : ℕ) (portfolio : Portfolio) (symbol asset_class : String)
    (side : Side) (quantity entry_price leverage : ℚ) : Position :=
  let metrics := calculate_position_metrics side quantity entry_price entry_price leverage
  { id := pos_id
    portfolio_id := portfolio.id
    participant_id := portfolio.participant_id
    symbol := symbol
    asset_class := asset_class
    side := side
    quantity := quantity
    entry_price := entry_price
    current_price := entry_price
    leverage := leverage
    margin_required := metrics.margin_required
    notional_value := metrics.notional_value
    unrealized_pnl := 0
    unrealized_pnl_pct := 0 }

/-! ## Portfolio manager — `app/services/portfolio_manager.py` -/

/-- Mirrors `PortfolioManager.update_portfolio`: recompute every aggregate
from the portfolio's current set of positions (the `positions` argument
models the `SELECT ... WHERE portfolio_id = ...` query). -/
def update_portfolio (portfolio : Portfolio) (positions : List Position) : Portfolio :=
  let total_margin_used := (positions.map (fun p => p.margin_required)).sum
  let total_unrealized_pnl := (positions.map (fun p => p.unrealized_pnl)).sum
  let total_notional_value := (positions.map (fun p => p.notional_value)).sum
  let equity := calculate_equity portfolio.cash_balance total_unrealized_pnl
  let margin_available := equity - total_margin_used
  let total_pnl := portfolio.realized_pnl + total_unrealized_pnl
  let margin_level : Option ℚ :=
    if 0 < total_margin_used then some (calculate_margin_level equity total_margin_used)
    else none
  let current_leverage := calculate_current_leverage total_notional_value equity
  { portfolio with
    equity := equity
    margin_used := total_margin_used
    margin_available := margin_available
    unrealized_pnl := total_unrealized_pnl
    total_pnl := total_pnl
    margin_level := margin_level
    current_leverage := current_leverage }

/-- Mirrors `PortfolioManager.allocate_margin`: the reserve-only model never
touches `cash_balance`; it simply recomputes the portfolio. -/
def allocate_margin (portfolio : Portfolio) (positions : List Position) (_margin_amount : ℚ) :
    Portfolio :=
  update_portfolio portfolio positions

/-- Mirrors `PortfolioManager.release_margin`: realized P&L is added to the
cash balance and to the cumulative realized P&L, then the portfolio is
recomputed from the remaining positions. -/
def release_margin (portfolio : Portfolio) (positions : List Position)
    (_margin_amount realized_pnl : ℚ) : Portfolio :=
  update_portfolio
    { portfolio with
      cash_balance := portfolio.cash_balance + realized_pnl
      realized_pnl := portfolio.realized_pnl + realized_pnl }
    positions

/-- Mirrors `PortfolioManager.update_participant_equity`: set the current
equity and bump the peak. -/
def update_participant_equity (participant : Participant) (new_equity : ℚ) : Participant :=
  { participant with
    current_equity := new_equity
    peak_equity := if participant.peak_equity < new_equity then new_equity
      else participant.peak_equity }

/-- Accounting identities of spec §3/§8 for a portfolio together with its
current position set. -/
def portfolio_invariants (u : Portfolio) (positions : List Position) : Prop :=
  u.equity = u.cash_balance + u.unrealized_pnl ∧
  u.margin_used = (positions.map (fun p => p.margin_required)).sum ∧
  u.unrealized_pnl = (positions.map (fun p => p.unrealized_pnl)).sum ∧
  u.margin_available = u.equity - u.margin_used ∧
  u.total_pnl = u.realized_pnl + u.unrealized_pnl ∧
  ((u.margin_used = 0 ∧ u.margin_level = none) ∨
    u.margin_level = some (u.equity / u.margin_used * 100))

instance (u : Portfolio) (positions : List Position) :
    Decidable (portfolio_invariants u positions) := by
  unfold portfolio_invariants
  infer_instance

/-- Helper: `update_portfolio` establishes the §3 identities whenever no
position carries a negative frozen margin. -/
lemma update_portfolio_invariants_of_nonneg (portfolio : Portfolio) (positions : List Position)
    (h : ∀ p ∈ positions, 0 ≤ p.margin_required) :
    portfolio_invariants (update_portfolio portfolio positions) positions := by
  have hsum : 0 ≤ (positions.map (fun p => p.margin_required)).sum := by
    apply List.sum_nonneg
    intro x hx
    obtain ⟨p, hp, rfl⟩ := List.mem_map.mp hx
    exact h p hp
  unfold portfolio_invariants update_portfolio
  simp only [calculate_equity, calculate_margin_level]
  refine ⟨trivial, trivial, trivial, trivial, trivial, ?_⟩
  by_cases hpos : 0 < (positions.map (fun p => p.margin_required)).sum
  · right
    simp only [if_pos hpos, if_neg (ne_of_gt hpos)]
  · left
    have : (positions.map (fun p => p.margin_required)).sum = 0 := le_antisymm (not_lt.mp hpos) hsum
    simp [if_neg hpos, this]

/-- C1: after `update_portfolio` every accounting identity of §3 holds,
under the sole assumption that no position carries a negative frozen
margin. -/
theorem update_portfolio_meets_invariants (portfolio : Portfolio) (positions : List Position)
    (h : ∀ p ∈ positions, 0 ≤ p.margin_required) :
    portfolio_invariants (update_portfolio portfolio positions) positions :=
  update_portfolio_invariants_of_nonneg portfolio positions h

/-- Concrete position used by the invariant witnesses (E1 of spec §8, after
a mark to 105000). -/
def samplePosition : Position :=
  { id := 1
    portfolio_id := 1
    participant_id := 1
    symbol := "BTCUSDT"
    asset_class := "crypto"
    side := Side.long
    quantity := 1/20
    entry_price := 100000
    current_price := 105000
    leverage := 2
    margin_required := 2500
    notional_value := 5250
    unrealized_pnl := 250
    unrealized_pnl_pct := 5 }

/-- Concrete portfolio used by the invariant witnesses. -/
def samplePortfolio : Portfolio :=
  { id := 1
    participant_id := 1
    cash_balance := 10000
    equity := 10000
    margin_used := 2500
    margin_available := 7500
    realized_pnl := 0
    unrealized_pnl := 0
    total_pnl := 0
    current_leverage := 0
    margin_level := none }

/-- Witness for C1 at a concrete one-position portfolio. -/
theorem update_portfolio_meets_invariants_witness :
    (∀ p ∈ [samplePosition], 0 ≤ p.margin_required) ∧
    portfolio_invariants (update_portfolio samplePortfolio [samplePosition]) [samplePosition] :=
  ⟨by decide, update_portfolio_meets_invariants _ _ (by decide)⟩

/-! ## Open/close round trip (C6)

The open flow at the accounting level (`TradingEngine._execute_open` minus
the order/trade rows): create the position via `CFDEngine.open_position`,
then recompute the portfolio over the enlarged position set
(`allocate_margin` followed by the closing `update_portfolio` — the net
effect of the two recomputations is one recomputation over the new set).
The close flow (`TradingEngine._execute_close`): `CFDEngine.close_position`
deletes the row, then `release_margin` books the realized P&L and
recomputes over the remaining set. -/

/-- Portfolio state after opening a fresh position and closing it again at
`close_price`, starting from `portfolio` with position set `positions`. -/
def open_then_close (portfolio : Portfolio) (positions : List Position) (pos_id : ℕ)
    (symbol asset_class : String) (side : Side) (quantity entry_price leverage close_price : ℚ) :
    Portfolio :=
  let pos := open_position pos_id portfolio symbol asset_class side quantity entry_price leverage
  let afterOpen := allocate_margin portfolio (positions ++ [pos]) pos.margin_required
  let res := close_position pos close_price
  release_margin afterOpen positions res.margin_released res.realized_pnl

/-- C6: closing a freshly opened position at its entry price realizes zero
P&L and restores cash, margin used and equity; closing a long at
`entry·(1+r)` or a short at `entry·(1−r)` realizes `quantity·entry·r`.
The two hypotheses say the pre-open portfolio is consistent with its
position set, i.e. a state produced by `update_portfolio`. -/
theorem open_close_round_trip (portfolio : Portfolio) (positions : List Position) (pos_id : ℕ)
    (symbol asset_class : String) (side : Side) (quantity entry_price leverage r : ℚ)
    (hm : portfolio.margin_used = (positions.map (fun p => p.margin_required)).sum)
    (he : portfolio.equity =
      portfolio.cash_balance + (positions.map (fun p => p.unrealized_pnl)).sum) :
    (close_position (open_position pos_id portfolio symbol asset_class side quantity
        entry_price leverage) entry_price).realized_pnl = 0 ∧
    (open_then_close portfolio positions pos_id symbol asset_class side quantity entry_price
        leverage entry_price).cash_balance = portfolio.cash_balance ∧
    (open_then_close portfolio positions pos_id symbol asset_class side quantity entry_price
        leverage entry_price).margin_used = portfolio.margin_used ∧
    (open_then_close portfolio positions pos_id symbol asset_class side quantity entry_price
        leverage entry_price).equity = portfolio.equity ∧
    (close_position (open_position pos_id portfolio symbol asset_class Side.long quantity
        entry_price leverage) (entry_price * (1 + r))).realized_pnl =
      quantity * entry_price * r ∧
    (close_position (open_position pos_id portfolio symbol asset_class Side.short quantity
        entry_price leverage) (entry_price * (1 - r))).realized_pnl =
      quantity * entry_price * r := by
  have hzero : (close_position (open_position pos_id portfolio symbol asset_class side quantity
      entry_price leverage) entry_price).realized_pnl = 0 := by
    cases side <;>
      simp [close_position, open_position, calculate_position_metrics,
        calculate_unrealized_pnl, calculate_unrealized_pnl_long,
        calculate_unrealized_pnl_short]
  refine ⟨hzero, ?_, ?_, ?_, ?_, ?_⟩
  · simp only [open_then_close, release_margin, allocate_margin, update_portfolio]
    simp only [hzero]
    simp
  · simp only [open_then_close, release_margin, allocate_margin, update_portfolio]
    simpa using hm.symm
  · simp only [open_then_close, release_margin, allocate_margin, update_portfolio,
      calculate_equity]
    simp only [hzero]
    simpa using he.symm
  · simp [close_position, open_position, calculate_position_metrics,
      calculate_unrealized_pnl, calculate_unrealized_pnl_long]
    ring
  · simp [close_position, open_position, calculate_position_metrics,
      calculate_unrealized_pnl, calculate_unrealized_pnl_short]
    ring

/-- Flat portfolio with no open positions, used as a round-trip witness
start state (E1 of spec §8). -/
def flatPortfolio : Portfolio :=
  { id := 1
    participant_id := 1
    cash_balance := 10000
    equity := 10000
    margin_used := 0
    margin_available := 10000
    realized_pnl := 0
    unrealized_pnl := 0
    total_pnl := 0
    current_leverage := 0
    margin_level := none }

/-- Witness for C6: E1 of spec §8 — open 0.05 BTC at 100000 with leverage 2
from a flat 10000 portfolio and close at the same price, and check the
`r`-scaling at `r = 1/20`. -/
theorem open_close_round_trip_witness :
    (flatPortfolio.margin_used = (([] : List Position).map (fun p => p.margin_required)).sum ∧
      flatPortfolio.equity =
        flatPortfolio.cash_balance +
          (([] : List Position).map (fun p => p.unrealized_pnl)).sum) ∧
    ((close_position (open_position 2 flatPortfolio "BTCUSDT" "crypto" Side.long (1/20)
        100000 2) 100000).realized_pnl = 0 ∧
      (open_then_close flatPortfolio [] 2 "BTCUSDT" "crypto" Side.long (1/20)
        100000 2 100000).cash_balance = flatPortfolio.cash_balance ∧
      (open_then_close flatPortfolio [] 2 "BTCUSDT" "crypto" Side.long (1/20)
        100000 2 100000).margin_used = flatPortfolio.margin_used ∧
      (open_then_close flatPortfolio [] 2 "BTCUSDT" "crypto" Side.long (1/20)
        100000 2 100000).equity = flatPortfolio.equity ∧
      (close_position (open_position 2 flatPortfolio "BTCUSDT" "crypto" Side.long (1/20)
        100000 2) (100000 * (1 + 1/20))).realized_pnl = 1/20 * 100000 * (1/20) ∧
      (close_position (open_position 2 flatPortfolio "BTCUSDT" "crypto" Side.short (1/20)
        100000 2) (100000 * (1 - 1/20))).realized_pnl = 1/20 * 100000 * (1/20)) :=
  ⟨⟨by norm_num [flatPortfolio], by norm_num [flatPortfolio]⟩,
    open_close_round_trip flatPortfolio [] 2 "BTCUSDT" "crypto"
      Side.long (1/20) 100000 2 (1/20) (by norm_num [flatPortfolio])
      (by norm_num [flatPortfolio])⟩

/-! ## Liquidation — `PortfolioManager.check_and_liquidate` -/

/-- Python's `if not current_price: continue` in the liquidation loop treats
a missing price and a zero price alike as unavailable (`Decimal("0")` is
falsy). -/
def truthy_price (prices : List (String × ℚ)) (symbol : String) : Bool :=
  match get_price prices symbol with
  | none => false
  | some pr => decide (pr ≠ 0)

/-- Realized P&L contributed by one position during the liquidation sweep:
zero when its price is unavailable (the position is skipped), otherwise
the result of `close_position` at the fetched price. -/
def position_close_realized (prices : List (String × ℚ)) (pos : Position) : ℚ :=
  match get_price prices pos.symbol with
  | none => 0
  | some pr => if pr = 0 then 0 else (close_position pos pr).realized_pnl

/-- Mirrors `PortfolioManager.check_and_liquidate`.  Returns the bool the
Python function returns together with the resulting participant,
portfolio and remaining position rows.  The `positions` argument models
the `SELECT ... WHERE portfolio_id = ...` query inside the function. -/
def check_and_liquidate (participant : Participant) (portfolio : Portfolio)
    (competition : Competition) (positions : List Position) (prices : List (String × ℚ)) :
    Bool × Participant × Portfolio × List Position :=
  if participant.status ≠ "active" then (false, participant, portfolio, positions)
  else if portfolio.margin_used ≤ 0 then (false, participant, portfolio, positions)
  else
    let margin_level := portfolio.equity / portfolio.margin_used * 100
    let initial_margin_pct := (100 : ℚ) / competition.max_leverage
    let should_liquidate :=
      check_liquidation margin_level competition.maintenance_margin_pct initial_margin_pct
    if !should_liquidate then (false, participant, portfolio, positions)
    else if positions.isEmpty then (false, participant, portfolio, positions)
    else
      let total_realized_pnl := (positions.map (position_close_realized prices)).sum
      let remaining := positions.filter (fun pos => !truthy_price prices pos.symbol)
      let portfolio' := update_portfolio
        { portfolio with
          cash_balance := portfolio.cash_balance + total_realized_pnl
          realized_pnl := portfolio.realized_pnl + total_realized_pnl }
        remaining
      (true, { participant with status := "liquidated" }, portfolio', remaining)

/-- C10: a portfolio whose stored `margin_used` is positive but which has no
position rows is never liquidated: `check_and_liquidate` returns false and
changes nothing, whatever the stored margin level. -/
theorem no_positions_never_liquidated (participant : Participant) (portfolio : Portfolio)
    (competition : Competition) (prices : List (String × ℚ))
    (h : 0 < portfolio.margin_used) :
    check_and_liquidate participant portfolio competition [] prices =
      (false, participant, portfolio, []) := by
  unfold check_and_liquidate
  by_cases hs : participant.status ≠ "active"
  · simp [hs]
  · simp only [hs, if_false, ite_false, if_neg (not_le.mpr h)]
    by_cases hl : check_liquidation (portfolio.equity / portfolio.margin_used * 100)
        competition.maintenance_margin_pct (100 / competition.max_leverage)
    · simp [hl]
    · simp [hl]

/-- Participant used in the liquidation examples. -/
def sampleParticipant : Participant :=
  { id := 1
    competition_id := 1
    status := "active"
    current_equity := 10
    peak_equity := 10000
    total_trades := 0
    winning_trades := 0
    losing_trades := 0 }

/-- Competition of spec §8: max leverage 10, maintenance margin 5%, so the
liquidation threshold is 50%. -/
def sampleCompetition : Competition :=
  { id := 1
    status := "active"
    end_time := 4102444800
    max_leverage := 10
    maintenance_margin_pct := 5 }

/-- Stale portfolio: stored `margin_used = 100` and `equity = 10` (margin
level 10%, far below the 50% threshold) but no position rows back it. -/
def stalePortfolio : Portfolio :=
  { id := 1
    participant_id := 1
    cash_balance := 10
    equity := 10
    margin_used := 100
    margin_available := -90
    realized_pnl := 0
    unrealized_pnl := 0
    total_pnl := 0
    current_leverage := 0
    margin_level := some 10 }

/-- Witness for C10: the stale portfolio is below the liquidation threshold
yet `check_and_liquidate` returns false and changes nothing. -/
theorem no_positions_never_liquidated_witness :
    0 < stalePortfolio.margin_used ∧
    check_and_liquidate sampleParticipant stalePortfolio sampleCompetition [] [] =
      (false, sampleParticipant, stalePortfolio, []) :=
  ⟨by norm_num [stalePortfolio],
    no_positions_never_liquidated sampleParticipant stalePortfolio sampleCompetition []
      (by norm_num [stalePortfolio])⟩

/-- Counterexample for C4 as stated: an active participant whose stored
margin level (10%) is far below the 50% threshold is NOT liquidated —
`check_and_liquidate` returns false — because the portfolio has no
position rows, contradicting the claim that the below-threshold branch
always liquidates and returns true. -/
theorem check_and_liquidate_claim_counterexample :
    sampleParticipant.status = "active" ∧
    0 < stalePortfolio.margin_used ∧
    check_liquidation (stalePortfolio.equity / stalePortfolio.margin_used * 100)
      sampleCompetition.maintenance_margin_pct (100 / sampleCompetition.max_leverage) = true ∧
    (check_and_liquidate sampleParticipant stalePortfolio sampleCompetition [] []).1 = false ∧
    (check_and_liquidate sampleParticipant stalePortfolio sampleCompetition [] []).2.1.status
      ≠ "liquidated" := by
  have hres : check_and_liquidate sampleParticipant stalePortfolio sampleCompetition [] [] =
      (false, sampleParticipant, stalePortfolio, []) := by
    norm_num [check_and_liquidate, check_liquidation, stalePortfolio, sampleCompetition,
      sampleParticipant]
  refine ⟨rfl, by norm_num [stalePortfolio], ?_, ?_, ?_⟩
  · norm_num [check_liquidation, stalePortfolio, sampleCompetition]
  · rw [hres]
  · rw [hres]
    decide

/-- Helper: the value of `check_and_liquidate` when the liquidation branch
is taken. -/
lemma check_and_liquidate_triggered (participant : Participant) (portfolio : Portfolio)
    (competition : Competition) (positions : List Position) (prices : List (String × ℚ))
    (hs : participant.status = "active") (hm : 0 < portfolio.margin_used)
    (hl : check_liquidation (portfolio.equity / portfolio.margin_used * 100)
      competition.maintenance_margin_pct (100 / competition.max_leverage) = true)
    (hne : positions ≠ []) :
    check_and_liquidate participant portfolio competition positions prices =
      (true, { participant with status := "liquidated" },
        update_portfolio
          { portfolio with
            cash_balance := portfolio.cash_balance +
              (positions.map (position_close_realized prices)).sum
            realized_pnl := portfolio.realized_pnl +
              (positions.map (position_close_realized prices)).sum }
          (positions.filter (fun pos => !truthy_price prices pos.symbol)),
        positions.filter (fun pos => !truthy_price prices pos.symbol)) := by
  unfold check_and_liquidate
  simp [hs, not_le.mpr hm, hl, hne]

/-- Helper: an `update_portfolio` result keeps the cash balance and the
realized P&L of its input. -/
lemma update_portfolio_keeps_cash (portfolio : Portfolio) (positions : List Position) :
    (update_portfolio portfolio positions).cash_balance = portfolio.cash_balance ∧
    (update_portfolio portfolio positions).realized_pnl = portfolio.realized_pnl := by
  simp [update_portfolio]

/-- C4 (amended): `check_and_liquidate` returns false and changes nothing
when the participant is not active or `margin_used ≤ 0`; when the stored
margin level is below the threshold and at least one position row exists,
it closes every position with an available (nonzero) price, keeps the
unpriced ones, books the accumulated realized P&L into cash and realized
P&L, recomputes the portfolio, marks the participant liquidated and
returns true; if every held symbol has a nonzero price, no position
remains and `margin_used = 0` afterwards. -/
theorem check_and_liquidate_spec (participant : Participant) (portfolio : Portfolio)
    (competition : Competition) (positions : List Position) (prices : List (String × ℚ)) :
    (participant.status ≠ "active" →
      check_and_liquidate participant portfolio competition positions prices =
        (false, participant, portfolio, positions)) ∧
    (portfolio.margin_used ≤ 0 →
      check_and_liquidate participant portfolio competition positions prices =
        (false, participant, portfolio, positions)) ∧
    (participant.status = "active" → 0 < portfolio.margin_used →
      check_liquidation (portfolio.equity / portfolio.margin_used * 100)
        competition.maintenance_margin_pct (100 / competition.max_leverage) = true →
      positions ≠ [] →
      (check_and_liquidate participant portfolio competition positions prices).1 = true ∧
      (check_and_liquidate participant portfolio competition positions prices).2.1 =
        { participant with status := "liquidated" } ∧
      (check_and_liquidate participant portfolio competition positions prices).2.2.2 =
        positions.filter (fun pos => !truthy_price prices pos.symbol) ∧
      (check_and_liquidate participant portfolio competition positions
          prices).2.2.1.cash_balance =
        portfolio.cash_balance + (positions.map (position_close_realized prices)).sum ∧
      (check_and_liquidate participant portfolio competition positions
          prices).2.2.1.realized_pnl =
        portfolio.realized_pnl + (positions.map (position_close_realized prices)).sum ∧
      ((∀ pos ∈ positions, 0 ≤ pos.margin_required) →
        portfolio_invariants
          (check_and_liquidate participant portfolio competition positions prices).2.2.1
          (check_and_liquidate participant portfolio competition positions prices).2.2.2) ∧
      ((∀ pos ∈ positions, truthy_price prices pos.symbol = true) →
        (check_and_liquidate participant portfolio competition positions prices).2.2.2 = [] ∧
        (check_and_liquidate participant portfolio competition positions
            prices).2.2.1.margin_used = 0)) := by
  refine ⟨?_, ?_, ?_⟩
  · intro hs
    unfold check_and_liquidate
    simp [hs]
  · intro hm
    unfold check_and_liquidate
    by_cases hs : participant.status ≠ "active"
    · simp [hs]
    · simp [hs, hm]
  · intro hs hm hl hne
    rw [check_and_liquidate_triggered participant portfolio competition positions prices
      hs hm hl hne]
    refine ⟨rfl, rfl, rfl, ?_, ?_, ?_, ?_⟩
    · exact (update_portfolio_keeps_cash _ _).1
    · exact (update_portfolio_keeps_cash _ _).2
    · intro hmr
      apply update_portfolio_invariants_of_nonneg
      intro p hp
      exact hmr p (List.mem_filter.mp hp).1
    · intro hall
      have hfil : positions.filter (fun pos => !truthy_price prices pos.symbol) = [] := by
        rw [List.filter_eq_nil_iff]
        intro a ha
        simp [hall a ha]
      refine ⟨hfil, ?_⟩
      simp [hfil, update_portfolio]

/-- Position backing the liquidation witness: a deep-underwater long. -/
def liqPosition : Position :=
  { id := 3
    portfolio_id := 1
    participant_id := 1
    symbol := "ETHUSDT"
    asset_class := "crypto"
    side := Side.long
    quantity := 1
    entry_price := 100000
    current_price := 40000
    leverage := 10
    margin_required := 10000
    notional_value := 40000
    unrealized_pnl := -60000
    unrealized_pnl_pct := -60 }

/-- Portfolio backing the liquidation witness: margin level 40%, below the
50% threshold of `sampleCompetition` (E5 of spec §8). -/
def liqPortfolio : Portfolio :=
  { id := 1
    participant_id := 1
    cash_balance := 64000
    equity := 4000
    margin_used := 10000
    margin_available := -6000
    realized_pnl := 0
    unrealized_pnl := -60000
    total_pnl := -60000
    current_leverage := 10
    margin_level := some 40 }

/-- Witness for the amended C4: the E5 scenario liquidates — returns true,
status becomes liquidated, no position remains, `margin_used = 0`. -/
theorem check_and_liquidate_spec_witness :
    (sampleParticipant.status = "active" ∧ 0 < liqPortfolio.margin_used ∧
      check_liquidation (liqPortfolio.equity / liqPortfolio.margin_used * 100)
        sampleCompetition.maintenance_margin_pct (100 / sampleCompetition.max_leverage) =
        true ∧
      [liqPosition] ≠ [] ∧
      (∀ pos ∈ [liqPosition], truthy_price [("ETHUSDT", (40000 : ℚ))] pos.symbol = true)) ∧
    ((check_and_liquidate sampleParticipant liqPortfolio sampleCompetition [liqPosition]
        [("ETHUSDT", (40000 : ℚ))]).1 = true ∧
      (check_and_liquidate sampleParticipant liqPortfolio sampleCompetition [liqPosition]
        [("ETHUSDT", (40000 : ℚ))]).2.1 =
        { sampleParticipant with status := "liquidated" } ∧
      (check_and_liquidate sampleParticipant liqPortfolio sampleCompetition [liqPosition]
        [("ETHUSDT", (40000 : ℚ))]).2.2.2 = [] ∧
      (check_and_liquidate sampleParticipant liqPortfolio sampleCompetition [liqPosition]
        [("ETHUSDT", (40000 : ℚ))]).2.2.1.margin_used = 0) := by
  have hl : check_liquidation (liqPortfolio.equity / liqPortfolio.margin_used * 100)
      sampleCompetition.maintenance_margin_pct (100 / sampleCompetition.max_leverage) =
      true := by
    norm_num [check_liquidation, liqPortfolio, sampleCompetition]
  have hall : ∀ pos ∈ [liqPosition], truthy_price [("ETHUSDT", (40000 : ℚ))] pos.symbol =
      true := by
    intro pos hp
    simp only [List.mem_singleton] at hp
    subst hp
    norm_num [truthy_price, get_price, liqPosition, List.find?]
  have h := (check_and_liquidate_spec sampleParticipant liqPortfolio sampleCompetition
    [liqPosition] [("ETHUSDT", (40000 : ℚ))]).2.2 rfl (by norm_num [liqPortfolio]) hl
    (by simp)
  exact ⟨⟨rfl, by norm_num [liqPortfolio], hl, by simp, hall⟩,
    h.1, h.2.1, (h.2.2.2.2.2.2 hall).1, (h.2.2.2.2.2.2 hall).2⟩

/-! ## Scheduler — `app/services/scheduler.py` -/

/-- Database state touched by the mark-to-market tick. -/
structure TickWorld where
  positions : List Position
  portfolios : List Portfolio
  participants : List Participant
  prices : List (String × ℚ)
deriving DecidableEq

/-- One position's treatment in the price-update loop: revalued when its
batch-fetched price is truthy (present and nonzero), left untouched
otherwise. -/
def tick_update_position (prices : List (String × ℚ)) (pos : Position) : Position :=
  match get_price prices pos.symbol with
  | none => pos
  | some pr => if pr = 0 then pos else update_position_price pos pr

/-- Mirrors `SchedulerService._update_all_prices`: revalue every open
position whose symbol has a truthy batch-fetched price, then recompute
every affected portfolio and refresh its participant's equity.  No
liquidation check appears in the source function. -/
def update_all_prices (w : TickWorld) : TickWorld :=
  if w.positions.isEmpty then w
  else if !(w.positions.any (fun pos => (get_price w.prices pos.symbol).isSome)) then w
  else
    let positions' := w.positions.map (tick_update_position w.prices)
    let affected :=
      (w.positions.filter (fun pos => truthy_price w.prices pos.symbol)).map
        (fun pos => pos.portfolio_id)
    let portfolios' := w.portfolios.map (fun pf =>
      if affected.contains pf.id then
        update_portfolio pf (positions'.filter (fun q => q.portfolio_id == pf.id))
      else pf)
    let participants' := w.participants.map (fun part =>
      match portfolios'.find? (fun pf => pf.participant_id == part.id &&
          affected.contains pf.id) with
      | some pf => update_participant_equity part pf.equity
      | none => part)
    { w with
      positions := positions'
      portfolios := portfolios'
      participants := participants' }

/-- Pre-tick position for the liquidation-divergence scenario: still valued
at its entry price. -/
def preTickPosition : Position :=
  { id := 3
    portfolio_id := 1
    participant_id := 1
    symbol := "ETHUSDT"
    asset_class := "crypto"
    side := Side.long
    quantity := 1
    entry_price := 100000
    current_price := 100000
    leverage := 10
    margin_required := 10000
    notional_value := 100000
    unrealized_pnl := 0
    unrealized_pnl_pct := 0 }

/-- Pre-tick portfolio (healthy before the price crash). -/
def preTickPortfolio : Portfolio :=
  { id := 1
    participant_id := 1
    cash_balance := 64000
    equity := 64000
    margin_used := 10000
    margin_available := 54000
    realized_pnl := 0
    unrealized_pnl := 0
    total_pnl := 0
    current_leverage := 100000/64000
    margin_level := some 640 }

/-- Active participant for the divergence scenario. -/
def preTickParticipant : Participant :=
  { id := 1
    competition_id := 1
    status := "active"
    current_equity := 64000
    peak_equity := 64000
    total_trades := 0
    winning_trades := 0
    losing_trades := 0 }

/-- World in which the ETH price has crashed to 40000: after revaluation the
portfolio's margin level is 40%, below the 50% liquidation threshold of
`sampleCompetition`. -/
def crashWorld : TickWorld :=
  { positions := [preTickPosition]
    portfolios := [preTickPortfolio]
    participants := [preTickParticipant]
    prices := [("ETHUSDT", 40000)] }

/-- C3 holds in part and fails in part: the mark-to-market tick revalues
positions and refreshes portfolios and participant equity, but it never
runs the liquidation check — participant statuses are identically
preserved by `update_all_prices`, even in a world where the post-tick
margin level is below the liquidation threshold and `check_and_liquidate`
would liquidate. -/
theorem tick_never_liquidates :
    (∀ w : TickWorld,
      (update_all_prices w).participants.map (fun p => (p.id, p.status)) =
        w.participants.map (fun p => (p.id, p.status))) ∧
    ((update_all_prices crashWorld).portfolios.head?.map (fun pf => pf.margin_level) =
      some (some 40) ∧
     (match (update_all_prices crashWorld).participants.head?,
        (update_all_prices crashWorld).portfolios.head? with
      | some part, some pf =>
        (check_and_liquidate part pf sampleCompetition
          (update_all_prices crashWorld).positions crashWorld.prices).1 = true
      | _, _ => False) ∧
     (update_all_prices crashWorld).participants.map (fun p => p.status) = ["active"]) := by
  constructor
  · intro w
    unfold update_all_prices
    by_cases h1 : w.positions.isEmpty
    · simp [h1]
    · by_cases h2 : w.positions.any (fun pos => (get_price w.prices pos.symbol).isSome)
      · simp only [h1, h2, if_false, Bool.not_true, Bool.false_eq_true, ite_false,
          ite_true, List.map_map]
        apply List.map_congr_left
        intro part _
        simp only [Function.comp_apply]
        cases hf : (w.portfolios.map (fun pf =>
            if ((w.positions.filter (fun pos => truthy_price w.prices pos.symbol)).map
                (fun pos => pos.portfolio_id)).contains pf.id then
              update_portfolio pf ((w.positions.map (tick_update_position w.prices)).filter
                (fun q => q.portfolio_id == pf.id))
            else pf)).find? (fun pf => pf.participant_id == part.id &&
            ((w.positions.filter (fun pos => truthy_price w.prices pos.symbol)).map
              (fun pos => pos.portfolio_id)).contains pf.id) with
        | none => rfl
        | some pf => simp [update_participant_equity]
      · simp [h1, h2]
  · refine ⟨?_, ?_, ?_⟩
    · norm_num [update_all_prices, crashWorld, preTickPosition, preTickPortfolio,
        preTickParticipant, tick_update_position, truthy_price, get_price, List.find?,
        update_position_price, calculate_position_metrics, calculate_unrealized_pnl,
        calculate_unrealized_pnl_long, calculate_notional_value, calculate_pnl_percentage,
        calculate_margin_required, update_portfolio, calculate_equity,
        calculate_margin_level, calculate_current_leverage, update_participant_equity]
    · norm_num [update_all_prices, crashWorld, preTickPosition, preTickPortfolio,
        preTickParticipant, tick_update_position, truthy_price, get_price, List.find?,
        update_position_price, calculate_position_metrics, calculate_unrealized_pnl,
        calculate_unrealized_pnl_long, calculate_notional_value, calculate_pnl_percentage,
        calculate_margin_required, update_portfolio, calculate_equity,
        calculate_margin_level, calculate_current_leverage, update_participant_equity,
        check_and_liquidate, check_liquidation, sampleCompetition, position_close_realized,
        close_position]
    · norm_num [update_all_prices, crashWorld, preTickPosition, preTickPortfolio,
        preTickParticipant, tick_update_position, truthy_price, get_price, List.find?,
        update_position_price, calculate_position_metrics, calculate_unrealized_pnl,
        calculate_unrealized_pnl_long, calculate_notional_value, calculate_pnl_percentage,
        calculate_margin_required, update_portfolio, calculate_equity,
        calculate_margin_level, calculate_current_leverage, update_participant_equity]

/-- Mirrors `SchedulerService._invoke_all_participants`: competitions are
filtered by `end_time > now` only (their `status` column is not
consulted), participants by membership and `status == "active"`; each
selected participant is invoked inside its own try/except, so the
outcome of one invocation (`f`) cannot stop the others. -/
def invoke_all_participants {α : Type} (competitions : List Competition)
    (participants : List Participant) (now : ℤ) (f : ℕ → α) : List (ℕ × α) :=
  let active_competitions := competitions.filter (fun c => now < c.end_time)
  if active_competitions.isEmpty then []
  else
    let competition_ids := active_competitions.map (fun c => c.id)
    let active_participants := participants.filter
      (fun p => competition_ids.contains p.competition_id && p.status == "active")
    if active_participants.isEmpty then []
    else active_participants.map (fun p => (p.id, f p.id))

/-- Competition whose status is still `pending` but whose `end_time` lies in
the future. -/
def pendingCompetition : Competition :=
  { id := 7
    status := "pending"
    end_time := 4102444800
    max_leverage := 10
    maintenance_margin_pct := 5 }

/-- Active participant enrolled in `pendingCompetition`. -/
def pendingParticipant : Participant :=
  { id := 9
    competition_id := 7
    status := "active"
    current_equity := 10000
    peak_equity := 10000
    total_trades := 0
    winning_trades := 0
    losing_trades := 0 }

/-- Counterexample for C7 as stated: the decision tick invokes the active
participant of a competition whose status is `pending` (not `active`),
because the source filters competitions by `end_time` alone; under the
claim a non-active competition's participants would not be invoked. -/
theorem decision_tick_claim_counterexample :
    pendingCompetition.status ≠ "active" ∧
    pendingParticipant.status = "active" ∧
    (0 : ℤ) < pendingCompetition.end_time ∧
    (invoke_all_participants [pendingCompetition] [pendingParticipant] 0
      (fun _ => true)).map Prod.fst = [9] := by
  refine ⟨by decide, rfl, by decide, ?_⟩
  decide

/-- Helper: the decision tick's result is the map of the invocation over
exactly the active participants of the future-ending competitions. -/
lemma invoke_all_participants_eq {α : Type} (competitions : List Competition)
    (participants : List Participant) (now : ℤ) (f : ℕ → α) :
    invoke_all_participants competitions participants now f =
      (participants.filter (fun p =>
        (competitions.filter (fun c => now < c.end_time)).any
            (fun c => c.id == p.competition_id) &&
          p.status == "active")).map (fun p => (p.id, f p.id)) := by
  have hsel : ∀ (p : Participant),
      ((competitions.filter (fun c => now < c.end_time)).map (fun c => c.id)).contains
          p.competition_id =
        (competitions.filter (fun c => now < c.end_time)).any
          (fun c => c.id == p.competition_id) := by
    intro p
    rw [Bool.eq_iff_iff]
    simp
    tauto
  unfold invoke_all_participants
  have hfil : participants.filter (fun p =>
        ((competitions.filter (fun c => now < c.end_time)).map
            (fun c => c.id)).contains p.competition_id &&
          p.status == "active") =
      participants.filter (fun p =>
        (competitions.filter (fun c => now < c.end_time)).any
            (fun c => c.id == p.competition_id) &&
          p.status == "active") := by
    apply List.filter_congr
    intro p _
    rw [hsel p]
  by_cases h1 : (competitions.filter (fun c => now < c.end_time)).isEmpty
  · rw [List.isEmpty_iff] at h1
    have : participants.filter (fun p =>
        (competitions.filter (fun c => now < c.end_time)).any
            (fun c => c.id == p.competition_id) &&
          p.status == "active") = [] := by
      rw [h1]
      simp
    simp [h1, this]
  · simp only [h1, if_false, ite_false, Bool.false_eq_true]
    rw [hfil]
    by_cases h2 : (participants.filter (fun p =>
        (competitions.filter (fun c => now < c.end_time)).any
            (fun c => c.id == p.competition_id) &&
          p.status == "active")).isEmpty
    · rw [List.isEmpty_iff] at h2
      simp [h2]
    · simp [h2]

/-- C7 (amended): the decision tick invokes exactly the active participants
of every competition whose `end_time` is in the future — the competition
status is not consulted — and the set of invoked participants does not
depend on the invocation outcomes, so one participant's failure cannot
prevent the others from being invoked. -/
theorem decision_tick_invokes {α : Type} (competitions : List Competition)
    (participants : List Participant) (now : ℤ) (f : ℕ → α) :
    invoke_all_participants competitions participants now f =
      (participants.filter (fun p =>
        (competitions.filter (fun c => now < c.end_time)).any
            (fun c => c.id == p.competition_id) &&
          p.status == "active")).map (fun p => (p.id, f p.id)) ∧
    (∀ g : ℕ → α,
      (invoke_all_participants competitions participants now f).map Prod.fst =
        (invoke_all_participants competitions participants now g).map Prod.fst) := by
  refine ⟨invoke_all_participants_eq competitions participants now f, ?_⟩
  intro g
  rw [invoke_all_participants_eq competitions participants now f,
    invoke_all_participants_eq competitions participants now g]
  simp

/-! ## Trading engine — `app/services/trading_engine.py` -/

/-- Row of the `orders` table (`app/models/order.py`), restricted to the
fields the engine touches. -/
structure Order where
  id : ℕ
  participant_id : ℕ
  competition_id : ℕ
  symbol : String
  asset_class : String
  order_type : String
  side : OrderSide
  quantity : ℚ
  leverage : ℚ
  status : String
  rejection_reason : Option String
  executed_price : Option ℚ
deriving DecidableEq

/-- Row of the `trades` table (`app/models/trade.py`). -/
structure Trade where
  order_id : ℕ
  participant_id : ℕ
  position_id : Option ℕ
  symbol : String
  side : OrderSide
  quantity : ℚ
  price : ℚ
  action : String
  leverage : ℚ
  notional_value : ℚ
  margin_impact : ℚ
  realized_pnl : Option ℚ
  realized_pnl_pct : Option ℚ
deriving DecidableEq

/-- Outcome of executing one order: the persisted order, the trade (if one
was created), and the updated portfolio, position set and participant. -/
structure ExecOutcome where
  order : Order
  trade : Option Trade
  portfolio : Portfolio
  positions : List Position
  participant : Participant
deriving DecidableEq

/-- Parameter names of `CFDEngine.open_position` as declared in
`cfd_engine.py` (`self` aside): there is no `exit_plan` parameter. -/
def open_position_param_names : List String :=
  ["portfolio", "symbol", "asset_class", "side", "quantity", "entry_price", "leverage"]

/-- Keyword arguments `TradingEngine._execute_open` passes in its
`self.cfd_engine.open_position(...)` call: it always includes
`exit_plan`. -/
def execute_open_call_kwargs : List String :=
  ["portfolio", "symbol", "asset_class", "side", "quantity", "entry_price", "leverage",
    "exit_plan"]

/-- Python keyword-call semantics: a call supplying a keyword the callee's
signature does not declare raises `TypeError` before the body runs. -/
def call_open_position (kwargs : List String) (pos : Position) : Except String Position :=
  if kwargs.all (fun k => open_position_param_names.contains k) then Except.ok pos
  else Except.error "TypeError: open_position() got an unexpected keyword argument"

/-- Mirrors `TradingEngine.execute_order` for `action = "open"` followed by
`TradingEngine._execute_open`.  An uncaught Python exception is the
`Except.error` case. -/
def execute_order_open (order : Order) (participant : Participant) (portfolio : Portfolio)
    (positions : List Position) (prices : List (String × ℚ)) (new_pos_id : ℕ) :
    Except String ExecOutcome :=
  match get_price prices order.symbol with
  | none =>
    Except.ok
      { order := { order with
          status := "rejected"
          rejection_reason := some "Could not fetch market price" }
        trade := none
        portfolio := portfolio
        positions := positions
        participant := participant }
  | some price =>
    let order1 := { order with executed_price := some price }
    let position_side := match order1.side with
      | OrderSide.buy => Side.long
      | OrderSide.sell => Side.short
    let notional_value := calculate_notional_value order1.quantity price
    let margin_required := calculate_margin_required notional_value order1.leverage
    let portfolio1 := allocate_margin portfolio positions margin_required
    let pos := open_position new_pos_id portfolio1 order1.symbol order1.asset_class
      position_side order1.quantity price order1.leverage
    match call_open_position execute_open_call_kwargs pos with
    | Except.error e => Except.error e
    | Except.ok position =>
      let trade : Trade :=
        { order_id := order1.id
          participant_id := participant.id
          position_id := some position.id
          symbol := order1.symbol
          side := order1.side
          quantity := order1.quantity
          price := price
          action := "open"
          leverage := order1.leverage
          notional_value := notional_value
          margin_impact := margin_required
          realized_pnl := none
          realized_pnl_pct := none }
      let positions2 := positions ++ [position]
      let portfolio2 := update_portfolio portfolio1 positions2
      let participant2 := update_participant_equity participant portfolio2.equity
      Except.ok
        { order := { order1 with status := "executed" }
          trade := some trade
          portfolio := portfolio2
          positions := positions2
          participant := participant2 }

/-- C2 fails on the code: whenever the market price is available, executing
an open order raises `TypeError`, because `_execute_open` always passes
the keyword `exit_plan` and `CFDEngine.open_position` declares no such
parameter; no position, trade or executed status is ever produced. -/
theorem execute_open_raises_type_error (order : Order) (participant : Participant)
    (portfolio : Portfolio) (positions : List Position) (prices : List (String × ℚ))
    (new_pos_id : ℕ) (price : ℚ) (h : get_price prices order.symbol = some price) :
    execute_order_open order participant portfolio positions prices new_pos_id =
      Except.error "TypeError: open_position() got an unexpected keyword argument" := by
  have hbad : ∀ pos : Position, call_open_position execute_open_call_kwargs pos =
      Except.error "TypeError: open_position() got an unexpected keyword argument" := by
    intro pos
    unfold call_open_position
    have hc : (execute_open_call_kwargs.all fun k => open_position_param_names.contains k) =
        false := by decide
    rw [hc]
    simp
  unfold execute_order_open
  rw [h]
  simp [hbad]

/-- Order used by the C2 witness: E1's open of 0.05 BTC at leverage 2. -/
def btcOpenOrder : Order :=
  { id := 21
    participant_id := 1
    competition_id := 1
    symbol := "BTCUSDT"
    asset_class := "crypto"
    order_type := "market"
    side := OrderSide.buy
    quantity := 1/20
    leverage := 2
    status := "pending"
    rejection_reason := none
    executed_price := none }

/-- Witness for C2: with BTC quoted at 100000 the open raises TypeError. -/
theorem execute_open_raises_type_error_witness :
    get_price [("BTCUSDT", (100000 : ℚ))] btcOpenOrder.symbol = some 100000 ∧
    execute_order_open btcOpenOrder sampleParticipant flatPortfolio []
        [("BTCUSDT", (100000 : ℚ))] 31 =
      Except.error "TypeError: open_position() got an unexpected keyword argument" :=
  ⟨rfl,
    execute_open_raises_type_error btcOpenOrder sampleParticipant flatPortfolio []
      [("BTCUSDT", (100000 : ℚ))] 31 100000 rfl⟩

/-! ## Agent order processing — `LLMInvoker._process_orders` and
`TradingEngine._execute_close` -/

/-- Parsed order of the decision grammar (`schemas/llm_response.py`,
`LLMOrderDecision`), with the UUID `position_id` modelled as a key. -/
structure OrderDecision where
  action : String
  symbol : String
  side : Option OrderSide
  quantity : Option ℚ
  leverage : ℚ
  position_id : Option ℕ
deriving DecidableEq

/-- Mirrors the close-correction block of `LLMInvoker._process_orders`
(lines 227–248): on a close with a resolvable `position_id` the stored
symbol always wins, and a missing side/quantity is filled from the
position. Returns the `(symbol, side, quantity)` the order is built
from. -/
def corrected_close_fields (d : OrderDecision) (positions : List Position) :
    String × Option OrderSide × Option ℚ :=
  if d.action == "close" then
    match d.position_id with
    | none => (d.symbol, d.side, d.quantity)
    | some pid =>
      match positions.find? (fun pos => pos.id == pid) with
      | none => (d.symbol, d.side, d.quantity)
      | some position =>
        ( position.symbol,
          match d.side with
          | some s => some s
          | none => some (match position.side with
            | Side.long => OrderSide.sell
            | Side.short => OrderSide.buy),
          match d.quantity with
          | some q => some q
          | none => some position.quantity )
  else (d.symbol, d.side, d.quantity)

/-- Mirrors `TradingEngine.validate_order`. -/
def validate_order (participant : Participant) (competition : Competition)
    (portfolio : Portfolio) (symbol : String) (quantity leverage : ℚ) (action : String)
    (position_id : Option ℕ) (positions : List Position) (prices : List (String × ℚ)) :
    Bool × Option String :=
  if participant.status ≠ "active" then
    (false, some ("Participant is " ++ participant.status))
  else if competition.max_leverage < leverage then
    (false, some "Leverage exceeds max")
  else if action == "open" then
    match get_price prices symbol with
    | none => (false, some ("Could not fetch price for " ++ symbol))
    | some price =>
      let notional_value := calculate_notional_value quantity price
      let margin_required := calculate_margin_required notional_value leverage
      if portfolio.margin_available < margin_required then
        (false, some "Insufficient margin")
      else (true, none)
  else if action == "close" || action == "increase" || action == "decrease" then
    match position_id with
    | none => (false, some "Position ID required for close/increase/decrease")
    | some pid =>
      match positions.find? (fun pos : Position => pos.id == pid) with
      | none => (false, some "Position not found")
      | some position =>
        if position.participant_id ≠ participant.id then
          (false, some "Position does not belong to this participant")
        else (true, none)
  else (true, none)

/-- Mirrors `TradingEngine._execute_close`: resolve the position by
`position_id` when given (else by participant and symbol), close it,
release margin, record the trade with a null position reference, bump the
win/loss counters, refresh the portfolio and the participant equity. -/
def execute_close (order : Order) (participant : Participant) (portfolio : Portfolio)
    (positions : List Position) (price : ℚ) (position_id : Option ℕ) : ExecOutcome :=
  let found := match position_id with
    | some pid => positions.find? (fun pos : Position => pos.id == pid)
    | none => positions.find? (fun pos : Position =>
        pos.participant_id == participant.id && pos.symbol == order.symbol)
  match found with
  | none =>
    { order := { order with
        status := "rejected"
        rejection_reason := some "Position not found" }
      trade := none
      portfolio := portfolio
      positions := positions
      participant := participant }
  | some position =>
    let close_result := close_position position price
    let positions2 := positions.filter (fun pos => pos.id != position.id)
    let portfolio2 := release_margin portfolio positions2 close_result.margin_released
      close_result.realized_pnl
    let trade : Trade :=
      { order_id := order.id
        participant_id := participant.id
        position_id := none
        symbol := order.symbol
        side := order.side
        quantity := order.quantity
        price := price
        action := "close"
        leverage := position.leverage
        notional_value := calculate_notional_value order.quantity price
        margin_impact := -close_result.margin_released
        realized_pnl := some close_result.realized_pnl
        realized_pnl_pct := some close_result.realized_pnl_pct }
    let participant2 := { participant with
      total_trades := participant.total_trades + 1
      winning_trades := participant.winning_trades +
        (if 0 < close_result.realized_pnl then 1 else 0)
      losing_trades := participant.losing_trades +
        (if close_result.realized_pnl < 0 then 1 else 0) }
    let portfolio3 := update_portfolio portfolio2 positions2
    let participant3 := update_participant_equity participant2 portfolio3.equity
    { order := { order with status := "executed" }
      trade := some trade
      portfolio := portfolio3
      positions := positions2
      participant := participant3 }

/-- One close decision through `_process_orders`: correction, validation,
order row creation, then `execute_order` (price fetch on the corrected
symbol) dispatching to `_execute_close`. -/
def process_close_decision (d : OrderDecision) (participant : Participant)
    (competition : Competition) (portfolio : Portfolio) (positions : List Position)
    (prices : List (String × ℚ)) (order_id : ℕ) : ExecOutcome :=
  let fields := corrected_close_fields d positions
  let symbol := fields.1
  match fields.2.1, fields.2.2 with
  | some side, some quantity =>
    let v := validate_order participant competition portfolio symbol quantity d.leverage
      d.action d.position_id positions prices
    let order : Order :=
      { id := order_id
        participant_id := participant.id
        competition_id := competition.id
        symbol := symbol
        asset_class := "crypto"
        order_type := "market"
        side := side
        quantity := quantity
        leverage := d.leverage
        status := if v.1 then "pending" else "rejected"
        rejection_reason := v.2
        executed_price := none }
    if v.1 then
      match get_price prices order.symbol with
      | none =>
        { order := { order with
            status := "rejected"
            rejection_reason := some "Could not fetch market price" }
          trade := none
          portfolio := portfolio
          positions := positions
          participant := participant }
      | some price =>
        execute_close { order with executed_price := some price } participant portfolio
          positions price d.position_id
    else
      { order := order, trade := none, portfolio := portfolio, positions := positions,
        participant := participant }
  | _, _ =>
    { order :=
      { id := order_id
        participant_id := participant.id
        competition_id := competition.id
        symbol := symbol
        asset_class := "crypto"
        order_type := "market"
        side := OrderSide.buy
        quantity := 0
        leverage := d.leverage
        status := "rejected"
        rejection_reason := some "Missing required fields: side and/or quantity"
        executed_price := none }
      trade := none
      portfolio := portfolio
      positions := positions
      participant := participant }

/-- C5: on a close decision whose `position_id` resolves, the stored
position's symbol replaces the agent's symbol before validation and
execution, an omitted side becomes the opposite of the position side, an
omitted quantity becomes the stored quantity, and execution closes that
stored position (removing exactly its row) at the price fetched for the
position's own symbol — whatever symbol the agent supplied. -/
theorem close_symbol_correction (d : OrderDecision) (participant : Participant)
    (competition : Competition) (portfolio : Portfolio) (positions : List Position)
    (prices : List (String × ℚ)) (order_id : ℕ) (position : Position) (pid : ℕ) (price : ℚ)
    (ha : d.action = "close")
    (hpid : d.position_id = some pid)
    (hfind : positions.find? (fun pos : Position => pos.id == pid) = some position)
    (hstatus : participant.status = "active")
    (hlev : d.leverage ≤ competition.max_leverage)
    (hown : position.participant_id = participant.id)
    (hprice : get_price prices position.symbol = some price) :
    (corrected_close_fields d positions).1 = position.symbol ∧
    (d.side = none → (corrected_close_fields d positions).2.1 =
      some (match position.side with
        | Side.long => OrderSide.sell
        | Side.short => OrderSide.buy)) ∧
    (d.quantity = none → (corrected_close_fields d positions).2.2 =
      some position.quantity) ∧
    (process_close_decision d participant competition portfolio positions prices
        order_id).order.symbol = position.symbol ∧
    (process_close_decision d participant competition portfolio positions prices
        order_id).order.executed_price = some price ∧
    (process_close_decision d participant competition portfolio positions prices
        order_id).order.status = "executed" ∧
    (∃ t : Trade,
      (process_close_decision d participant competition portfolio positions prices
        order_id).trade = some t ∧
      t.price = price ∧ t.symbol = position.symbol ∧ t.action = "close" ∧
      t.realized_pnl = some (close_position position price).realized_pnl) ∧
    (process_close_decision d participant competition portfolio positions prices
        order_id).positions = positions.filter (fun pos => pos.id != position.id) := by
  have hvalid : ∀ (sym : String) (qty : ℚ),
      validate_order participant competition portfolio sym qty d.leverage "close"
        (some pid) positions prices = (true, none) := by
    intro sym qty
    unfold validate_order
    rw [hstatus]
    simp only [ne_eq, not_true_eq_false, if_false, ite_false, if_neg (not_lt.mpr hlev)]
    have hne : (("close" == "open") : Bool) = false := by decide
    rw [hne]
    simp only [Bool.false_eq_true, if_false, ite_false]
    have hcl : (("close" == "close" || "close" == "increase" || "close" == "decrease") :
        Bool) = true := by decide
    rw [hcl]
    simp only [if_true, ite_true, hfind]
    rw [hown]
    simp
  cases hside : d.side with
  | none =>
    cases hq : d.quantity with
    | none =>
      refine ⟨?_, ?_, ?_, ?_, ?_, ?_, ?_, ?_⟩ <;>
        simp [process_close_decision, corrected_close_fields, execute_close, ha, hpid,
          hfind, hside, hq, hvalid, hprice]
    | some q =>
      refine ⟨?_, ?_, ?_, ?_, ?_, ?_, ?_, ?_⟩ <;>
        simp [process_close_decision, corrected_close_fields, execute_close, ha, hpid,
          hfind, hside, hq, hvalid, hprice]
  | some s =>
    cases hq : d.quantity with
    | none =>
      refine ⟨?_, ?_, ?_, ?_, ?_, ?_, ?_, ?_⟩ <;>
        simp [process_close_decision, corrected_close_fields, execute_close, ha, hpid,
          hfind, hside, hq, hvalid, hprice]
    | some q =>
      refine ⟨?_, ?_, ?_, ?_, ?_, ?_, ?_, ?_⟩ <;>
        simp [process_close_decision, corrected_close_fields, execute_close, ha, hpid,
          hfind, hside, hq, hvalid, hprice]

/-- Position held in ETHUSDT for the E4 witness. -/
def ethPosition : Position :=
  { id := 11
    portfolio_id := 1
    participant_id := 1
    symbol := "ETHUSDT"
    asset_class := "crypto"
    side := Side.long
    quantity := 1
    entry_price := 4000
    current_price := 4000
    leverage := 5
    margin_required := 800
    notional_value := 4000
    unrealized_pnl := 0
    unrealized_pnl_pct := 0 }

/-- E4 agent reply: a close naming the wrong symbol (BTCUSDT) but the right
position id, with side and quantity omitted. -/
def e4Decision : OrderDecision :=
  { action := "close"
    symbol := "BTCUSDT"
    side := none
    quantity := none
    leverage := 1
    position_id := some 11 }

/-- Price feed for E4: both symbols quoted, with very different prices. -/
def e4Prices : List (String × ℚ) := [("ETHUSDT", 3800), ("BTCUSDT", 100000)]

/-- Witness for C5 at the E4 scenario: the ETH position is closed at the
ETH price 3800, not at the agent-supplied BTC symbol's price. -/
theorem close_symbol_correction_witness :
    (e4Decision.action = "close" ∧ e4Decision.position_id = some 11 ∧
      [ethPosition].find? (fun pos : Position => pos.id == 11) = some ethPosition ∧
      sampleParticipant.status = "active" ∧
      e4Decision.leverage ≤ sampleCompetition.max_leverage ∧
      ethPosition.participant_id = sampleParticipant.id ∧
      get_price e4Prices ethPosition.symbol = some 3800) ∧
    ((corrected_close_fields e4Decision [ethPosition]).1 = ethPosition.symbol ∧
      (e4Decision.side = none → (corrected_close_fields e4Decision [ethPosition]).2.1 =
        some (match ethPosition.side with
          | Side.long => OrderSide.sell
          | Side.short => OrderSide.buy)) ∧
      (e4Decision.quantity = none → (corrected_close_fields e4Decision [ethPosition]).2.2 =
        some ethPosition.quantity) ∧
      (process_close_decision e4Decision sampleParticipant sampleCompetition samplePortfolio
          [ethPosition] e4Prices 41).order.symbol = ethPosition.symbol ∧
      (process_close_decision e4Decision sampleParticipant sampleCompetition samplePortfolio
          [ethPosition] e4Prices 41).order.executed_price = some 3800 ∧
      (process_close_decision e4Decision sampleParticipant sampleCompetition samplePortfolio
          [ethPosition] e4Prices 41).order.status = "executed" ∧
      (∃ t : Trade,
        (process_close_decision e4Decision sampleParticipant sampleCompetition
          samplePortfolio [ethPosition] e4Prices 41).trade = some t ∧
        t.price = 3800 ∧ t.symbol = ethPosition.symbol ∧ t.action = "close" ∧
        t.realized_pnl = some (close_position ethPosition 3800).realized_pnl) ∧
      (process_close_decision e4Decision sampleParticipant sampleCompetition samplePortfolio
          [ethPosition] e4Prices 41).positions =
        [ethPosition].filter (fun pos => pos.id != ethPosition.id)) :=
  ⟨⟨rfl, rfl, rfl, rfl, by norm_num [e4Decision, sampleCompetition], rfl, rfl⟩,
    close_symbol_correction e4Decision sampleParticipant sampleCompetition samplePortfolio
      [ethPosition] e4Prices 41 ethPosition 11 3800 rfl rfl rfl rfl
      (by norm_num [e4Decision, sampleCompetition]) rfl rfl⟩

/-! ## History downsampling — `app/utils/downsampling.py` -/

/-- Row of the `portfolio_history` table as the downsampler sees it:
`recorded_at` in epoch seconds plus a payload field. -/
structure HistoryRec where
  recorded_at : ℕ
  equity : ℚ
deriving DecidableEq

/-- Mirrors `calculate_optimal_interval`.  `none` models the
`ZeroDivisionError` Python raises for `target_points = 0` when
`record_count > 1000` (the guard returns 0 before the division
otherwise). -/
def calculate_optimal_interval (record_count : ℕ) (target_points : ℤ) : Option ℕ :=
  if record_count ≤ 1000 then some 0
  else if target_points = 0 then none
  else if (record_count : ℚ) / (target_points : ℚ) ≤ 2 then some 5
  else if (record_count : ℚ) / (target_points : ℚ) ≤ 4 then some 15
  else if (record_count : ℚ) / (target_points : ℚ) ≤ 8 then some 30
  else if (record_count : ℚ) / (target_points : ℚ) ≤ 16 then some 60
  else if (record_count : ℚ) / (target_points : ℚ) ≤ 32 then some 120
  else if (record_count : ℚ) / (target_points : ℚ) ≤ 64 then some 240
  else some 1440

/-- Bucket key of a record: `int(ts / 60) // interval * interval`, scaled
back to seconds, exactly as `downsample_history` computes it. -/
def bucket_timestamp (interval_minutes t : ℕ) : ℕ :=
  t / 60 / interval_minutes * interval_minutes * 60

/-- One step of the bucket dict: a new key is appended (Python dicts keep
insertion order), an existing key keeps the record with the larger
`recorded_at` (strictly later wins, first record wins ties). -/
def insert_bucket (interval_minutes : ℕ) (buckets : List (ℕ × HistoryRec))
    (r : HistoryRec) : List (ℕ × HistoryRec) :=
  let key := bucket_timestamp interval_minutes r.recorded_at
  if buckets.any (fun kv => kv.1 == key) then
    buckets.map (fun kv =>
      if kv.1 == key then (if kv.2.recorded_at < r.recorded_at then (key, r) else kv)
      else kv)
  else buckets ++ [(key, r)]

/-- Stable insertion into an ascending list (later input goes after equal
keys, like Python's stable sort). -/
def insert_by_time (r : HistoryRec) : List HistoryRec → List HistoryRec
  | [] => [r]
  | x :: xs =>
    if r.recorded_at < x.recorded_at then r :: x :: xs else x :: insert_by_time r xs

/-- Stable ascending sort by `recorded_at`, modelling `list.sort(key=...)`. -/
def sort_by_time (l : List HistoryRec) : List HistoryRec :=
  l.foldl (fun acc r => insert_by_time r acc) []

/-- Mirrors `downsample_history`: group into buckets keeping the latest
record per bucket, then return the values sorted ascending by time. -/
def downsample_history (records : List HistoryRec) (interval_minutes : ℕ) :
    List HistoryRec :=
  if records.isEmpty || interval_minutes == 0 then records
  else
    let buckets := records.foldl (insert_bucket interval_minutes) []
    sort_by_time (buckets.map (fun kv => kv.2))

/-- Mirrors `adaptive_downsample`. -/
def adaptive_downsample (records : List HistoryRec) (target_points : ℤ) :
    Option (List HistoryRec × ℕ) :=
  match calculate_optimal_interval records.length target_points with
  | none => none
  | some 0 => some (records, 0)
  | some interval => some (downsample_history records interval, interval)

/-- Invariant of the bucket fold: every stored entry carries its own bucket
key, comes from the records seen so far and is at least as late as every
seen record of its bucket; every seen record's bucket has an entry; and
the dict holds at most one entry per seen record. -/
def BucketInv (interval_minutes : ℕ) (acc : List (ℕ × HistoryRec))
    (seen : List HistoryRec) : Prop :=
  (∀ kv ∈ acc, kv.1 = bucket_timestamp interval_minutes kv.2.recorded_at ∧
    kv.2 ∈ seen ∧
    (∀ s ∈ seen, bucket_timestamp interval_minutes s.recorded_at = kv.1 →
      s.recorded_at ≤ kv.2.recorded_at)) ∧
  (∀ s ∈ seen, ∃ kv ∈ acc, kv.1 = bucket_timestamp interval_minutes s.recorded_at) ∧
  acc.length ≤ seen.length

/-- Helper: the per-entry update of the bucket dict never changes a key. -/
lemma insert_bucket_map_key (key : ℕ) (r : HistoryRec) (kv : ℕ × HistoryRec) :
    ((if kv.1 == key then (if kv.2.recorded_at < r.recorded_at then (key, r) else kv)
      else kv) : ℕ × HistoryRec).1 = kv.1 := by
  by_cases hkey : kv.1 = key
  · by_cases hlt : kv.2.recorded_at < r.recorded_at <;> simp [hkey, hlt]
  · simp [hkey]

/-- Helper: one `insert_bucket` step preserves the invariant. -/
lemma insert_bucket_inv (interval_minutes : ℕ) (acc : List (ℕ × HistoryRec))
    (seen : List HistoryRec) (r : HistoryRec) (h : BucketInv interval_minutes acc seen) :
    BucketInv interval_minutes (insert_bucket interval_minutes acc r) (seen ++ [r]) := by
  obtain ⟨h1, h2, h3⟩ := h
  unfold insert_bucket
  by_cases hp : acc.any (fun kv => kv.1 == bucket_timestamp interval_minutes r.recorded_at)
  · rw [if_pos hp]
    refine ⟨?_, ?_, ?_⟩
    · intro kv hkv
      obtain ⟨kv0, hkv0, hmap⟩ := List.mem_map.mp hkv
      by_cases hkey : kv0.1 = bucket_timestamp interval_minutes r.recorded_at
      · by_cases hlt : kv0.2.recorded_at < r.recorded_at
        · simp only [hkey, beq_self_eq_true, if_true, ite_true, hlt] at hmap
          subst hmap
          refine ⟨rfl, by simp, ?_⟩
          intro s hs hbs
          rcases List.mem_append.mp hs with hs | hs
          · exact le_of_lt (lt_of_le_of_lt ((h1 kv0 hkv0).2.2 s hs (by rw [hbs, hkey])) hlt)
          · simp only [List.mem_singleton] at hs
            subst hs
            exact le_refl _
        · simp only [hkey, beq_self_eq_true, if_true, ite_true, hlt, if_false,
            ite_false] at hmap
          subst hmap
          refine ⟨(h1 kv0 hkv0).1, List.mem_append_left _ (h1 kv0 hkv0).2.1, ?_⟩
          intro s hs hbs
          rcases List.mem_append.mp hs with hs | hs
          · exact (h1 kv0 hkv0).2.2 s hs hbs
          · simp only [List.mem_singleton] at hs
            subst hs
            exact not_lt.mp hlt
      · simp only [beq_iff_eq, hkey, if_false, ite_false] at hmap
        subst hmap
        refine ⟨(h1 kv0 hkv0).1, List.mem_append_left _ (h1 kv0 hkv0).2.1, ?_⟩
        intro s hs hbs
        rcases List.mem_append.mp hs with hs | hs
        · exact (h1 kv0 hkv0).2.2 s hs hbs
        · simp only [List.mem_singleton] at hs
          subst hs
          exact absurd hbs.symm hkey
    · intro s hs
      rcases List.mem_append.mp hs with hs | hs
      · obtain ⟨kv, hkv, hk⟩ := h2 s hs
        refine ⟨(if kv.1 == bucket_timestamp interval_minutes r.recorded_at then
          (if kv.2.recorded_at < r.recorded_at then
            (bucket_timestamp interval_minutes r.recorded_at, r) else kv) else kv), ?_, ?_⟩
        · exact List.mem_map.mpr ⟨kv, hkv, rfl⟩
        · rw [insert_bucket_map_key]
          exact hk
      · simp only [List.mem_singleton] at hs
        rw [hs]
        obtain ⟨kv, hkv, hk⟩ := List.any_eq_true.mp hp
        simp only [beq_iff_eq] at hk
        refine ⟨(if kv.1 == bucket_timestamp interval_minutes r.recorded_at then
          (if kv.2.recorded_at < r.recorded_at then
            (bucket_timestamp interval_minutes r.recorded_at, r) else kv) else kv), ?_, ?_⟩
        · exact List.mem_map.mpr ⟨kv, hkv, rfl⟩
        · rw [insert_bucket_map_key]
          exact hk
    · calc (acc.map _).length = acc.length := List.length_map _ _
        _ ≤ seen.length := h3
        _ ≤ (seen ++ [r]).length := by simp
  · rw [if_neg hp]
    refine ⟨?_, ?_, ?_⟩
    · intro kv hkv
      rcases List.mem_append.mp hkv with hkv' | hkv'
      · refine ⟨(h1 kv hkv').1, List.mem_append_left _ (h1 kv hkv').2.1, ?_⟩
        intro s hs hbs
        rcases List.mem_append.mp hs with hs' | hs'
        · exact (h1 kv hkv').2.2 s hs' hbs
        · exfalso
          apply hp
          apply List.any_eq_true.mpr
          refine ⟨kv, hkv', ?_⟩
          have hsr : s = r := by simpa using hs'
          rw [beq_iff_eq, ← hbs, hsr]
      · have hkv2 : kv = (bucket_timestamp interval_minutes r.recorded_at, r) := by
          simpa using hkv'
        rw [hkv2]
        refine ⟨rfl, by simp, ?_⟩
        intro s hs hbs
        rcases List.mem_append.mp hs with hs' | hs'
        · exfalso
          obtain ⟨kv3, hkv3, hk3⟩ := h2 s hs'
          apply hp
          apply List.any_eq_true.mpr
          refine ⟨kv3, hkv3, ?_⟩
          rw [beq_iff_eq, hk3]
          simpa using hbs
        · have hsr : s = r := by simpa using hs'
          rw [hsr]
    · intro s hs
      rcases List.mem_append.mp hs with hs' | hs'
      · obtain ⟨kv, hkv, hk⟩ := h2 s hs'
        exact ⟨kv, List.mem_append_left _ hkv, hk⟩
      · have hsr : s = r := by simpa using hs'
        rw [hsr]
        exact ⟨(bucket_timestamp interval_minutes r.recorded_at, r), by simp, rfl⟩
    · simp only [List.length_append, List.length_singleton]
      omega

/-- Helper: the invariant survives folding a whole record list. -/
lemma foldl_insert_bucket_inv (interval_minutes : ℕ) :
    ∀ (l : List HistoryRec) (acc : List (ℕ × HistoryRec)) (seen : List HistoryRec),
      BucketInv interval_minutes acc seen →
      BucketInv interval_minutes (l.foldl (insert_bucket interval_minutes) acc) (seen ++ l)
  | [], acc, seen, h => by simpa using h
  | r :: t, acc, seen, h => by
    have h1 := insert_bucket_inv interval_minutes acc seen r h
    have h2 := foldl_insert_bucket_inv interval_minutes t
      (insert_bucket interval_minutes acc r) (seen ++ [r]) h1
    simpa [List.append_assoc] using h2

/-- Helper: the invariant holds of the finished bucket dict. -/
lemma bucket_inv_final (interval_minutes : ℕ) (records : List HistoryRec) :
    BucketInv interval_minutes (records.foldl (insert_bucket interval_minutes) [])
      records := by
  have h := foldl_insert_bucket_inv interval_minutes records [] []
    ⟨by simp, by simp, by simp⟩
  simpa using h

/-- Helper: membership in a stable insertion. -/
lemma mem_insert_by_time (r a : HistoryRec) (l : List HistoryRec) :
    a ∈ insert_by_time r l ↔ a = r ∨ a ∈ l := by
  induction l with
  | nil => simp [insert_by_time]
  | cons x xs ih =>
    by_cases h : r.recorded_at < x.recorded_at
    · rw [insert_by_time, if_pos h]
      simp only [List.mem_cons]
      try tauto
    · rw [insert_by_time, if_neg h]
      simp only [List.mem_cons, ih]
      try tauto

/-- Helper: a stable insertion adds exactly one element. -/
lemma length_insert_by_time (r : HistoryRec) (l : List HistoryRec) :
    (insert_by_time r l).length = l.length + 1 := by
  induction l with
  | nil => rfl
  | cons x xs ih =>
    by_cases h : r.recorded_at < x.recorded_at
    · rw [insert_by_time, if_pos h]
      simp
    · rw [insert_by_time, if_neg h]
      simp [ih]

/-- Helper: stable insertion preserves ascending order. -/
lemma pairwise_insert_by_time (r : HistoryRec) (l : List HistoryRec)
    (h : l.Pairwise (fun a b => a.recorded_at ≤ b.recorded_at)) :
    (insert_by_time r l).Pairwise (fun a b => a.recorded_at ≤ b.recorded_at) := by
  induction l with
  | nil => simp [insert_by_time]
  | cons x xs ih =>
    obtain ⟨hx, hxs⟩ := List.pairwise_cons.mp h
    by_cases hlt : r.recorded_at < x.recorded_at
    · rw [insert_by_time, if_pos hlt]
      refine List.pairwise_cons.mpr ⟨?_, h⟩
      intro b hb
      rcases List.mem_cons.mp hb with hb | hb
      · rw [hb]
        exact le_of_lt hlt
      · exact le_trans (le_of_lt hlt) (hx b hb)
    · rw [insert_by_time, if_neg hlt]
      refine List.pairwise_cons.mpr ⟨?_, ih hxs⟩
      intro b hb
      rcases (mem_insert_by_time r b xs).mp hb with hb | hb
      · rw [hb]
        exact not_lt.mp hlt
      · exact hx b hb

/-- Helper: membership through the sorting fold. -/
lemma mem_sort_fold (a : HistoryRec) :
    ∀ (l acc : List HistoryRec),
      (a ∈ l.foldl (fun acc r => insert_by_time r acc) acc ↔ a ∈ acc ∨ a ∈ l)
  | [], acc => by simp
  | r :: t, acc => by
    rw [List.foldl_cons, mem_sort_fold a t (insert_by_time r acc), mem_insert_by_time]
    simp only [List.mem_cons]
    tauto

/-- Helper: length through the sorting fold. -/
lemma length_sort_fold :
    ∀ (l acc : List HistoryRec),
      (l.foldl (fun acc r => insert_by_time r acc) acc).length = acc.length + l.length
  | [], acc => by simp
  | r :: t, acc => by
    rw [List.foldl_cons, length_sort_fold t (insert_by_time r acc), length_insert_by_time]
    simp only [List.length_cons]
    omega

/-- Helper: sortedness through the sorting fold. -/
lemma pairwise_sort_fold :
    ∀ (l acc : List HistoryRec),
      acc.Pairwise (fun a b => a.recorded_at ≤ b.recorded_at) →
      (l.foldl (fun acc r => insert_by_time r acc) acc).Pairwise
        (fun a b => a.recorded_at ≤ b.recorded_at)
  | [], _, h => h
  | r :: t, acc, h => by
    rw [List.foldl_cons]
    exact pairwise_sort_fold t (insert_by_time r acc) (pairwise_insert_by_time r acc h)

/-- Properties the claim asserts of a downsampled output. -/
def downsampled_ok (records out : List HistoryRec) (interval : ℕ) : Prop :=
  interval ∈ ([5, 15, 30, 60, 120, 240, 1440] : List ℕ) ∧
  out.length ≤ records.length ∧
  (∀ a ∈ out, a ∈ records) ∧
  out.Pairwise (fun a b => a.recorded_at ≤ b.recorded_at) ∧
  (∀ a ∈ out, ∃ m : ℕ, bucket_timestamp interval a.recorded_at = m * interval * 60) ∧
  (∀ a ∈ out, ∀ s ∈ records,
    bucket_timestamp interval s.recorded_at = bucket_timestamp interval a.recorded_at →
    s.recorded_at ≤ a.recorded_at)

/-- Helper: `downsample_history` satisfies the claimed output properties for
a nonempty input and a ladder interval. -/
lemma downsample_history_ok (records : List HistoryRec) (interval : ℕ)
    (hne : ¬records.isEmpty = true) (hi : (interval == 0) = false)
    (hmem : interval ∈ ([5, 15, 30, 60, 120, 240, 1440] : List ℕ)) :
    downsampled_ok records (downsample_history records interval) interval := by
  obtain ⟨h1, h2, h3⟩ := bucket_inv_final interval records
  unfold downsample_history
  rw [if_neg (by simp [hne, hi])]
  unfold sort_by_time
  refine ⟨hmem, ?_, ?_, ?_, ?_, ?_⟩
  · rw [length_sort_fold]
    simpa using le_trans (by simpa using h3) (le_refl records.length)
  · intro a ha
    rw [mem_sort_fold] at ha
    rcases ha with ha | ha
    · simp at ha
    · obtain ⟨kv, hkv, hkva⟩ := List.mem_map.mp ha
      rw [← hkva]
      exact (h1 kv hkv).2.1
  · exact pairwise_sort_fold _ [] (by simp)
  · intro a _
    exact ⟨a.recorded_at / 60 / interval, rfl⟩
  · intro a ha s hs hbs
    rw [mem_sort_fold] at ha
    rcases ha with ha | ha
    · simp at ha
    · obtain ⟨kv, hkv, hkva⟩ := List.mem_map.mp ha
      have hkey : kv.1 = bucket_timestamp interval a.recorded_at := by
        rw [(h1 kv hkv).1, hkva]
      have := (h1 kv hkv).2.2 s hs (by rw [hbs, ← hkey])
      rw [← hkva]
      exact this

/-- History of 1001 records, one per minute. -/
def bigHistory : List HistoryRec :=
  (List.range 1001).map (fun k => { recorded_at := 60 * k, equity := 0 })

/-- Counterexample for C9 as stated: with more than 1000 records and target
`T = 0` the code raises `ZeroDivisionError` (`record_count /
target_points`), returning nothing at all rather than a downsampled
list. -/
theorem adaptive_downsample_claim_counterexample :
    1000 < bigHistory.length ∧ adaptive_downsample bigHistory 0 = none := by
  have hlen : bigHistory.length = 1001 := by simp [bigHistory]
  constructor
  · rw [hlen]
    norm_num
  · have hcoi : calculate_optimal_interval bigHistory.length 0 = none := by
      rw [hlen]
      norm_num [calculate_optimal_interval]
    unfold adaptive_downsample
    rw [hcoi]

/-- C9 (amended): for a sorted history, a short input (≤ 1000 records) is
returned unchanged with interval 0 for every target; a longer input is
downsampled whenever the target is nonzero, yielding at most as many
records, drawn from the input, sorted ascending, with bucket boundaries
that are multiples of a ladder interval and with the latest record
retained per bucket. -/
theorem adaptive_downsample_spec (records : List HistoryRec) (target : ℤ)
    (_hsorted : records.Pairwise (fun a b => a.recorded_at ≤ b.recorded_at)) :
    (records.length ≤ 1000 → adaptive_downsample records target = some (records, 0)) ∧
    (1000 < records.length → target ≠ 0 →
      ∃ out interval, adaptive_downsample records target = some (out, interval) ∧
        downsampled_ok records out interval) := by
  constructor
  · intro h
    unfold adaptive_downsample calculate_optimal_interval
    rw [if_pos h]
  · intro hlen htz
    have hne : ¬records.isEmpty = true := by
      simp only [List.isEmpty_iff]
      intro hnil
      rw [hnil] at hlen
      simp at hlen
    have hcalc : ∃ interval, calculate_optimal_interval records.length target =
        some interval ∧ interval ∈ ([5, 15, 30, 60, 120, 240, 1440] : List ℕ) := by
      unfold calculate_optimal_interval
      rw [if_neg (not_le.mpr hlen), if_neg htz]
      split_ifs <;> exact ⟨_, rfl, by simp⟩
    obtain ⟨interval, hcalc_eq, hmem⟩ := hcalc
    have hds : ∀ i : ℕ, (i == 0) = false →
        i ∈ ([5, 15, 30, 60, 120, 240, 1440] : List ℕ) →
        calculate_optimal_interval records.length target = some i →
        ∃ out j, adaptive_downsample records target = some (out, j) ∧
          downsampled_ok records out j := by
      intro i hi hmi hci
      refine ⟨downsample_history records i, i, ?_,
        downsample_history_ok records i hne hi hmi⟩
      unfold adaptive_downsample
      rw [hci]
      match i, hi with
      | (n + 1), _ => rfl
    fin_cases hmem <;>
      exact hds _ (by decide) (by simp) hcalc_eq

/-- Short sorted history for the downsampling witness. -/
def smallHistory : List HistoryRec :=
  [{ recorded_at := 0, equity := 0 }, { recorded_at := 60, equity := 1 }]

/-- Witness for C9: a 2-record history passes through unchanged (target 7);
the 1001-record history with target 800 is genuinely downsampled with all
claimed properties. -/
theorem adaptive_downsample_spec_witness :
    (smallHistory.Pairwise (fun a b => a.recorded_at ≤ b.recorded_at) ∧
      smallHistory.length ≤ 1000 ∧
      adaptive_downsample smallHistory 7 = some (smallHistory, 0)) ∧
    (bigHistory.Pairwise (fun a b => a.recorded_at ≤ b.recorded_at) ∧
      1000 < bigHistory.length ∧ (800 : ℤ) ≠ 0 ∧
      ∃ out interval, adaptive_downsample bigHistory 800 = some (out, interval) ∧
        downsampled_ok bigHistory out interval) := by
  have hsmall : smallHistory.Pairwise (fun a b => a.recorded_at ≤ b.recorded_at) := by
    simp [smallHistory, List.pairwise_cons]
  have hbig : bigHistory.Pairwise (fun a b => a.recorded_at ≤ b.recorded_at) := by
    unfold bigHistory
    rw [List.pairwise_map]
    exact (List.pairwise_lt_range 1001).imp
      (fun h => Nat.mul_le_mul_left 60 (le_of_lt h))
  have hlen : bigHistory.length = 1001 := by simp [bigHistory]
  refine ⟨⟨hsmall, by norm_num [smallHistory], ?_⟩, hbig, by rw [hlen]; norm_num,
    by norm_num, ?_⟩
  · exact (adaptive_downsample_spec smallHistory 7 hsmall).1 (by norm_num [smallHistory])
  · exact (adaptive_downsample_spec bigHistory 800 hbig).2 (by rw [hlen]; norm_num)
      (by norm_num)

/-! ## Agent response parsing — `LLMInvoker._parse_llm_response`

The reply parser works on raw text.  Strings are modelled as `List Char`;
Python string primitives (`in`, `find`, `rfind`, `strip`, slicing) and the
two regular expressions of the source are modelled by executable list
functions below, and `json.loads` by a fuel-based JSON parser. -/

/-- JSON whitespace (also what `str.strip()` removes for the inputs at
hand). -/
def isWs (c : Char) : Bool :=
  c = ' ' || c = '\t' || c = '\n' || c = '\r'

/-- Decimal digit test. -/
def isDigitC (c : Char) : Bool :=
  '0' ≤ c && c ≤ '9'

/-- Hexadecimal digit test. -/
def isHexC (c : Char) : Bool :=
  isDigitC c || ('a' ≤ c && c ≤ 'f') || ('A' ≤ c && c ≤ 'F')

/-- Does `pat` occur at the very start of `s`? -/
def hasPre : List Char → List Char → Bool
  | [], _ => true
  | _ :: _, [] => false
  | p :: ps, c :: cs => p == c && hasPre ps cs

/-- Index of the first occurrence of `pat` in `s` (Python `str.find`). -/
def findSub : List Char → List Char → Option ℕ
  | s, pat =>
    if hasPre pat s then some 0
    else match s with
      | [] => none
      | _ :: cs => (findSub cs pat).map (fun i => i + 1)

/-- Python's `pat in s`. -/
def containsSub (s pat : List Char) : Bool :=
  (findSub s pat).isSome

/-- Python's `str.strip()` (whitespace both ends). -/
def strip (s : List Char) : List Char :=
  ((s.dropWhile isWs).reverse.dropWhile isWs).reverse

/-- JSON document values. -/
inductive Json
  | null
  | bool (b : Bool)
  | num (q : ℚ)
  | str (s : List Char)
  | arr (elems : List Json)
  | obj (members : List (List Char × Json))

/-- Decoder for one JSON escape sequence (the character after the
backslash plus the remaining input); `\uXXXX` is decoded without
surrogate pairing. -/
def decodeEscape (e : Char) (cs' : List Char) : Option (Char × List Char) :=
  if e = '"' then some ('"', cs')
  else if e = '\\' then some ('\\', cs')
  else if e = '/' then some ('/', cs')
  else if e = 'b' then some ('\x08', cs')
  else if e = 'f' then some ('\x0c', cs')
  else if e = 'n' then some ('\n', cs')
  else if e = 'r' then some ('\r', cs')
  else if e = 't' then some ('\t', cs')
  else if e = 'u' then
    match cs' with
    | h1 :: h2 :: h3 :: h4 :: cs'' =>
      match isHexC h1 && isHexC h2 && isHexC h3 && isHexC h4 with
      | true =>
        some (Char.ofNat
          (4096 * (h1.toNat % 16 + 9 * (h1.toNat / 64)) +
            256 * (h2.toNat % 16 + 9 * (h2.toNat / 64)) +
            16 * (h3.toNat % 16 + 9 * (h3.toNat / 64)) +
            (h4.toNat % 16 + 9 * (h4.toNat / 64))), cs'')
      | false => none
    | _ => none
  else none

/-- String-body parser (after the opening quote): handles the JSON escape
set; unescaped control characters are rejected as `json.loads` does in
strict mode. -/
def parseStringBodyF : ℕ → List Char → Option (List Char × List Char)
  | 0, _ => none
  | _ + 1, [] => none
  | fuel + 1, c :: cs =>
    if c = '"' then some ([], cs)
    else if c = '\\' then
      match cs with
      | [] => none
      | e :: cs' =>
        match decodeEscape e cs' with
        | none => none
        | some (d, rest) =>
          match parseStringBodyF fuel rest with
          | some (content, rest') => some (d :: content, rest')
          | none => none
    else if c.toNat < 32 then none
    else
      match parseStringBodyF fuel cs with
      | some (content, rest') => some (c :: content, rest')
      | none => none

/-- Numeric value of a digit run. -/
def digitsToNat (ds : List Char) : ℕ :=
  ds.foldl (fun acc c => 10 * acc + (c.toNat - 48)) 0

/-- JSON number parser: `-?(0|[1-9][0-9]*)(\.[0-9]+)?([eE][+-]?[0-9]+)?`,
evaluated exactly in `ℚ`. -/
def parseNumber (s : List Char) : Option (ℚ × List Char) :=
  let (neg, s1) : Bool × List Char :=
    match s with
    | '-' :: rest => (true, rest)
    | _ => (false, s)
  let intPart := s1.takeWhile isDigitC
  let s2 := s1.dropWhile isDigitC
  if intPart.isEmpty then none
  else if 1 < intPart.length && intPart.head? = some '0' then none
  else
    let fracStep : Option (List Char × List Char) :=
      match s2 with
      | '.' :: r =>
        let fd := r.takeWhile isDigitC
        if fd.isEmpty then none else some (fd, r.dropWhile isDigitC)
      | _ => some ([], s2)
    match fracStep with
    | none => none
    | some (fracPart, s3) =>
      let expStep : Option (ℤ × List Char) :=
        match s3 with
        | 'e' :: r | 'E' :: r =>
          let (eneg, r1) : Bool × List Char :=
            match r with
            | '-' :: rr => (true, rr)
            | '+' :: rr => (false, rr)
            | _ => (false, r)
          let ed := r1.takeWhile isDigitC
          if ed.isEmpty then none
          else some (if eneg then -(digitsToNat ed : ℤ) else (digitsToNat ed : ℤ),
            r1.dropWhile isDigitC)
        | _ => some (0, s3)
      match expStep with
      | none => none
      | some (e, s4) =>
        let mag : ℚ := ((digitsToNat intPart : ℚ) +
          (digitsToNat fracPart : ℚ) / (10 : ℚ) ^ fracPart.length) * (10 : ℚ) ^ e
        some (if neg then -mag else mag, s4)

mutual

/-- JSON value parser (fuel-based); mirrors `json.loads`'s grammar. -/
def parseValueF : ℕ → List Char → Option (Json × List Char)
  | 0, _ => none
  | fuel + 1, s =>
    match s.dropWhile isWs with
    | [] => none
    | c :: cs =>
      if c = '{' then
        match cs.dropWhile isWs with
        | '}' :: rest => some (Json.obj [], rest)
        | s1 => match parseMembersF fuel s1 with
          | some (kvs, rest) => some (Json.obj kvs, rest)
          | none => none
      else if c = '[' then
        match cs.dropWhile isWs with
        | ']' :: rest => some (Json.arr [], rest)
        | s1 => match parseElemsF fuel s1 with
          | some (vs, rest) => some (Json.arr vs, rest)
          | none => none
      else if c = '"' then
        match parseStringBodyF fuel cs with
        | some (content, rest) => some (Json.str content, rest)
        | none => none
      else if hasPre ['t', 'r', 'u', 'e'] (c :: cs) then
        some (Json.bool true, (c :: cs).drop 4)
      else if hasPre ['f', 'a', 'l', 's', 'e'] (c :: cs) then
        some (Json.bool false, (c :: cs).drop 5)
      else if hasPre ['n', 'u', 'l', 'l'] (c :: cs) then
        some (Json.null, (c :: cs).drop 4)
      else
        match parseNumber (c :: cs) with
        | some (q, rest) => some (Json.num q, rest)
        | none => none

/-- Object members parser; expects the input to start at a key quote. -/
def parseMembersF : ℕ → List Char → Option (List (List Char × Json) × List Char)
  | 0, _ => none
  | fuel + 1, s =>
    match s with
    | '"' :: cs =>
      match parseStringBodyF fuel cs with
      | none => none
      | some (key, rest1) =>
        match rest1.dropWhile isWs with
        | ':' :: rest3 =>
          match parseValueF fuel rest3 with
          | none => none
          | some (v, rest4) =>
            match rest4.dropWhile isWs with
            | ',' :: rest6 =>
              match parseMembersF fuel (rest6.dropWhile isWs) with
              | some (kvs, rest8) => some ((key, v) :: kvs, rest8)
              | none => none
            | '}' :: rest6 => some ([(key, v)], rest6)
            | _ => none
        | _ => none
    | _ => none

/-- Array elements parser; expects the input to start at the first element. -/
def parseElemsF : ℕ → List Char → Option (List Json × List Char)
  | 0, _ => none
  | fuel + 1, s =>
    match parseValueF fuel s with
    | none => none
    | some (v, rest) =>
      match rest.dropWhile isWs with
      | ',' :: rest2 =>
        match parseElemsF fuel rest2 with
        | some (vs, rest3) => some (v :: vs, rest3)
        | none => none
      | ']' :: rest2 => some ([v], rest2)
      | _ => none

end

/-- Python `json.loads`: a single document, surrounding whitespace
allowed. -/
def jsonLoads (s : List Char) : Option Json :=
  match parseValueF (s.length + 1) s with
  | some (v, rest) => if rest.all isWs then some v else none
  | none => none

/-- Exit-plan schema (`schemas/llm_response.py`, `ExitPlan`). -/
structure ExitPlan where
  profit_target : Option ℚ
  stop_loss : Option ℚ
  invalidation : Option (List Char)
deriving DecidableEq

/-- Order schema (`schemas/llm_response.py`, `LLMOrderDecision`). -/
structure LLMOrderDecision where
  action : List Char
  symbol : List Char
  side : Option (List Char)
  quantity : Option ℚ
  leverage : ℚ
  position_id : Option (List Char)
  exit_plan : Option ExitPlan
deriving DecidableEq

/-- Response schema (`schemas/llm_response.py`, `LLMResponse`). -/
structure LLMResponse where
  decision : List Char
  reasoning : List Char
  confidence : Option ℚ
  orders : List LLMOrderDecision
deriving DecidableEq

/-- Dictionary field lookup with Python's last-key-wins duplicate rule. -/
def getField (kvs : List (List Char × Json)) (name : List Char) : Option Json :=
  (kvs.reverse.find? (fun kv => kv.1 == name)).map (fun kv => kv.2)

/-- An optional float field: absent and null give `none`; a number gives its
value; any other type fails validation. -/
def optNumField (kvs : List (List Char × Json)) (name : List Char) : Option (Option ℚ) :=
  match getField kvs name with
  | none => some none
  | some Json.null => some none
  | some (Json.num q) => some (some q)
  | some _ => none

/-- An optional string field, same shape. -/
def optStrField (kvs : List (List Char × Json)) (name : List Char) :
    Option (Option (List Char)) :=
  match getField kvs name with
  | none => some none
  | some Json.null => some none
  | some (Json.str s) => some (some s)
  | some _ => none

/-- Validation of the `ExitPlan` model. -/
def validateExitPlan (j : Json) : Option ExitPlan :=
  match j with
  | Json.obj kvs =>
    match optNumField kvs ("profit_target".toList),
        optNumField kvs ("stop_loss".toList),
        optStrField kvs ("invalidation".toList) with
    | some pt, some sl, some inv =>
      some { profit_target := pt, stop_loss := sl, invalidation := inv }
    | _, _, _ => none
  | _ => none

/-- Validation of one `LLMOrderDecision` model instance (extra keys are
ignored as pydantic does by default; numeric-string coercions are not
modelled). -/
def validateOrderDec (j : Json) : Option LLMOrderDecision :=
  match j with
  | Json.obj kvs =>
    match getField kvs ("action".toList), getField kvs ("symbol".toList) with
    | some (Json.str action), some (Json.str symbol) =>
      if (action == "open".toList || action == "close".toList ||
          action == "increase".toList || action == "decrease".toList) = false then none
      else
        let sideF : Option (Option (List Char)) :=
          match optStrField kvs ("side".toList) with
          | some none => some none
          | some (some s) =>
            if s == "buy".toList || s == "sell".toList then some (some s) else none
          | none => none
        let levF : Option ℚ :=
          match getField kvs ("leverage".toList) with
          | none => some 1
          | some (Json.num q) => some q
          | some _ => none
        let epF : Option (Option ExitPlan) :=
          match getField kvs ("exit_plan".toList) with
          | none => some none
          | some Json.null => some none
          | some j' =>
            match validateExitPlan j' with
            | some ep => some (some ep)
            | none => none
        match sideF, optNumField kvs ("quantity".toList), levF,
            optStrField kvs ("position_id".toList), epF with
        | some side, some quantity, some leverage, some position_id, some exit_plan =>
          some { action := action
                 symbol := symbol
                 side := side
                 quantity := quantity
                 leverage := leverage
                 position_id := position_id
                 exit_plan := exit_plan }
        | _, _, _, _, _ => none
    | _, _ => none
  | _ => none

/-- All-or-nothing validation of an order list. -/
def validateOrderList : List Json → Option (List LLMOrderDecision)
  | [] => some []
  | j :: js =>
    match validateOrderDec j, validateOrderList js with
    | some o, some os => some (o :: os)
    | _, _ => none

/-- Validation of the top-level `LLMResponse` model from a JSON object's
members. -/
def validateResponse (kvs : List (List Char × Json)) : Option LLMResponse :=
  match getField kvs ("decision".toList), getField kvs ("reasoning".toList) with
  | some (Json.str decision), some (Json.str reasoning) =>
    if (decision == "trade".toList || decision == "hold".toList) = false then none
    else if 500 < reasoning.length then none
    else
      let confF : Option (Option ℚ) :=
        match optNumField kvs ("confidence".toList) with
        | some none => some none
        | some (some q) => if 0 ≤ q ∧ q ≤ 1 then some (some q) else none
        | none => none
      let ordersF : Option (List LLMOrderDecision) :=
        match getField kvs ("orders".toList) with
        | none => some []
        | some (Json.arr js) => validateOrderList js
        | some _ => none
      match confF, ordersF with
      | some confidence, some orders =>
        some { decision := decision
               reasoning := reasoning
               confidence := confidence
               orders := orders }
      | _, _ => none
  | _, _ => none

/-- Outcome of `_parse_llm_response`: a parsed response, an uncaught
`TypeError` (a JSON candidate that is not an object reaches
`LLMResponse(**data)`), or the final `ValueError` ("Could not extract
valid JSON"). -/
inductive ParseOutcome
  | ok (r : LLMResponse)
  | typeErr
  | fail
deriving DecidableEq

/-- A string that is a valid decision JSON: it loads as an object that
validates against the response model. -/
def decodeDecision (s : List Char) : Option LLMResponse :=
  match jsonLoads s with
  | some (Json.obj kvs) => validateResponse kvs
  | _ => none

/-- One extraction candidate through `json.loads` + `LLMResponse(**data)`:
`none` means fall through to the next candidate (JSONDecodeError or
pydantic's ValidationError, both caught); a non-object JSON aborts the
parse with TypeError. -/
def tryCandidate (s : List Char) : Option ParseOutcome :=
  match jsonLoads s with
  | none => none
  | some (Json.obj kvs) =>
    match validateResponse kvs with
    | some r => some (ParseOutcome.ok r)
    | none => none
  | some _ => some ParseOutcome.typeErr

/-- First candidate that does not fall through wins. -/
def tryCandidates : List (List Char) → Option ParseOutcome
  | [] => none
  | c :: cs =>
    match tryCandidate c with
    | some o => some o
    | none => tryCandidates cs

/-- The literal `[Response]`. -/
def respMarker : List Char := "[Response]".toList

/-- The literal triple backquote fence. -/
def fenceMarker : List Char := "```".toList

/-- Inclusive slice `s[a : b + 1]`. -/
def sliceIncl (s : List Char) (a b : ℕ) : List Char :=
  (s.drop a).take (b + 1 - a)

/-- Python `s.find(c)` for a single character. -/
def firstCharIdx (s : List Char) (c : Char) : Option ℕ :=
  findSub s [c]

/-- Python `s.rfind(c)` for a single character. -/
def lastCharIdx (s : List Char) (c : Char) : Option ℕ :=
  (findSub s.reverse [c]).map (fun i => s.length - 1 - i)

/-- Strategy 0: the first-`{`-to-last-`}` substring of the `[Response]`
section.  The regex `\[Response\]\s*(.*?)(?:\n\[|$)` with DOTALL takes the
text after the first marker, greedily past whitespace, lazily up to the
first `\n[` or the end; the section is then stripped and its brace
substring extracted (`none` when marker or a brace is missing). -/
def respSectionCandidate (t : List Char) : Option (List Char) :=
  match findSub t respMarker with
  | none => none
  | some i =>
    let afterWs := (t.drop (i + respMarker.length)).dropWhile isWs
    let sect :=
      match findSub afterWs ('\n' :: ['[']) with
      | some j => afterWs.take j
      | none => afterWs
    let sec := strip sect
    match firstCharIdx sec '{', lastCharIdx sec '}' with
    | some a, some b => some (sliceIncl sec a b)
    | _, _ => none

/-- Strategy 1: the stripped contents of the fenced code blocks, in order;
mirrors `re.findall(r'<fence>(?:json)?\s*(.*?)<fence>', ..., re.DOTALL)`
(the `json` tag is consumed greedily; an opener without a closer yields
nothing more). -/
def codeBlockCandidates : ℕ → List Char → List (List Char)
  | 0, _ => []
  | fuel + 1, s =>
    match findSub s fenceMarker with
    | none => []
    | some i =>
      let after := s.drop (i + 3)
      let afterTag := if hasPre ("json".toList) after then after.drop 4 else after
      let afterWs := afterTag.dropWhile isWs
      match findSub afterWs fenceMarker with
      | none => []
      | some j => strip (afterWs.take j) :: codeBlockCandidates fuel (afterWs.drop (j + 3))

/-- Strategy 2: the substring from the first `{` to the last `}` of the
whole (stripped) reply, attempted only when the last brace comes after
the first. -/
def braceCandidate (t : List Char) : Option (List Char) :=
  match firstCharIdx t '{', lastCharIdx t '}' with
  | some a, some b => if a < b then some (sliceIncl t a b) else none
  | _, _ => none

/-- The candidate list in source order: `[Response]` section, fenced code
blocks, brace substring, whole reply. -/
def strategyCandidates (t : List Char) : List (List Char) :=
  (match respSectionCandidate t with
    | some c => [c]
    | none => []) ++
  codeBlockCandidates t.length t ++
  (match braceCandidate t with
    | some c => [c]
    | none => []) ++
  [t]

/-- Mirrors `LLMInvoker._parse_llm_response`. -/
def parse_llm_response (txt : List Char) : ParseOutcome :=
  match tryCandidates (strategyCandidates (strip txt)) with
  | some o => o
  | none => ParseOutcome.fail

/-- Wrapping in a ```json fence (second form of the spec's equation). -/
def jsonFenceWrap (s : List Char) : List Char :=
  ("```json\n".toList) ++ s ++ ("\n```".toList)

/-- Wrapping in a plain fence surrounded by prose (third form). -/
def plainFenceWrap (s : List Char) : List Char :=
  ("prose\n```\n".toList) ++ s ++ ("\n```\nmore".toList)

/-- Prefixing with a reasoning section and a `[Response]` header (fourth
form). -/
def reasoningWrap (s : List Char) : List Char :=
  ("[Reasoning]\n...\n[Response]\n".toList) ++ s

/-- A valid decision JSON whose reasoning text contains the `[Response]`
marker and whose orders array sits after a newline (so `\n[` occurs). -/
def ceJson : List Char :=
  ("\x7b\"decision\": \"trade\", \"reasoning\": \"[Response]\", \"x\": \x7b\"decision\": \"hold\", \"reasoning\": \"inner\"\x7d, \"orders\":\n[]\x7d").toList

/-- What `ceJson` decodes to as a document. -/
def ceTradeResp : LLMResponse :=
  { decision := "trade".toList
    reasoning := "[Response]".toList
    confidence := none
    orders := [] }

/-- What the parser actually extracts from the bare `ceJson` (the embedded
object hijacked through the `[Response]`-section strategy). -/
def ceHoldResp : LLMResponse :=
  { decision := "hold".toList
    reasoning := "inner".toList
    confidence := none
    orders := [] }

/-- A valid decision JSON whose keys contain backquote fences; the fenced
code-block strategy extracts the string literal between the fences, which
loads as a non-dict and raises TypeError. -/
def ceFenceJson : List Char :=
  ("\x7b\"a```\": 1, \"```b\": 2, \"decision\": \"hold\", \"reasoning\": \"z\"\x7d").toList

set_option maxRecDepth 10000 in
/-- Counterexample for C8 as stated: `ceJson` is a valid decision JSON, yet
the parser returns a different decision for the bare reply than for the
reply under a `[Response]` header; and the valid `ceFenceJson` does not
even parse (uncaught TypeError) because of the fences inside it. -/
theorem parse_claim_counterexample :
    decodeDecision ceJson = some ceTradeResp ∧
    parse_llm_response ceJson = ParseOutcome.ok ceHoldResp ∧
    parse_llm_response (reasoningWrap ceJson) = ParseOutcome.ok ceTradeResp ∧
    ceHoldResp ≠ ceTradeResp ∧
    decodeDecision ceFenceJson =
      some { decision := "hold".toList
             reasoning := "z".toList
             confidence := none
             orders := [] } ∧
    parse_llm_response ceFenceJson = ParseOutcome.typeErr := by
  refine ⟨?_, ?_, ?_, by decide, ?_, ?_⟩ <;> rfl

/-! ### String toolbox lemmas -/

/-- Helper: `hasPre` is the prefix-decomposition test. -/
lemma hasPre_iff (pat : List Char) : ∀ s, hasPre pat s = true ↔ ∃ y, s = pat ++ y := by
  induction pat with
  | nil =>
    intro s
    simp [hasPre]
  | cons p ps ih =>
    intro s
    cases s with
    | nil =>
      simp [hasPre]
    | cons c cs =>
      rw [hasPre]
      simp only [Bool.and_eq_true, beq_iff_eq, ih cs]
      constructor
      · rintro ⟨rfl, y, rfl⟩
        exact ⟨y, rfl⟩
      · rintro ⟨y, h⟩
        obtain ⟨h1, h2⟩ := List.cons.injEq .. ▸ h
        exact ⟨h1.symm ▸ rfl, y, h2⟩

/-- Helper: a prefix of `s` is a prefix of `s ++ t`. -/
lemma hasPre_append_r (pat s t : List Char) (h : hasPre pat s = true) :
    hasPre pat (s ++ t) = true := by
  obtain ⟨y, rfl⟩ := (hasPre_iff pat s).mp h
  exact (hasPre_iff pat _).mpr ⟨y ++ t, by simp⟩

/-- Helper: the `findSub` recursion, restated as an equation. -/
lemma findSub_eq (s pat : List Char) :
    findSub s pat = if hasPre pat s then some 0
      else match s with
        | [] => none
        | _ :: cs => (findSub cs pat).map (fun i => i + 1) := by
  rw [findSub.eq_def]

/-- Helper: the prefix test only reads the first `pat.length` characters. -/
lemma hasPre_of_long (pat : List Char) :
    ∀ (a b : List Char), pat.length ≤ a.length → hasPre pat (a ++ b) = hasPre pat a := by
  induction pat with
  | nil => intro a b _; rfl
  | cons p ps ih =>
    intro a b hlen
    cases a with
    | nil => simp at hlen
    | cons c cs =>
      simp only [List.cons_append, hasPre, List.append_eq]
      rw [ih cs b (by simpa using hlen)]

/-- Helper: occurrence decomposition for `containsSub`. -/
lemma containsSub_iff (s pat : List Char) :
    containsSub s pat = true ↔ ∃ x y, s = x ++ pat ++ y := by
  unfold containsSub
  induction s with
  | nil =>
    rw [findSub_eq]
    by_cases h : hasPre pat [] = true
    · obtain ⟨y, hy⟩ := (hasPre_iff pat []).mp h
      rw [if_pos h]
      simp only [Option.isSome_some, true_iff]
      exact ⟨[], y, by simpa using hy⟩
    · rw [if_neg h]
      simp only [Option.isSome_none, Bool.false_eq_true, false_iff]
      rintro ⟨x, y, hxy⟩
      apply h
      have hx : x = [] := by
        cases x with
        | nil => rfl
        | cons a as => simp at hxy
      rw [hx] at hxy
      exact (hasPre_iff pat []).mpr ⟨y, by simpa using hxy⟩
  | cons c cs ih =>
    rw [findSub_eq]
    by_cases h : hasPre pat (c :: cs) = true
    · obtain ⟨y, hy⟩ := (hasPre_iff pat _).mp h
      rw [if_pos h]
      simp only [Option.isSome_some, true_iff]
      exact ⟨[], y, by simpa using hy⟩
    · rw [if_neg h]
      have hmap : (Option.map (fun i => i + 1) (findSub cs pat)).isSome =
          (findSub cs pat).isSome := by
        cases findSub cs pat <;> rfl
      rw [hmap, ih]
      constructor
      · rintro ⟨x, y, rfl⟩
        exact ⟨c :: x, y, rfl⟩
      · rintro ⟨x, y, hxy⟩
        cases x with
        | nil =>
          exfalso
          apply h
          exact (hasPre_iff pat _).mpr ⟨y, by simpa using hxy⟩
        | cons a as =>
          simp only [List.cons_append, List.cons.injEq] at hxy
          exact ⟨as, y, hxy.2⟩

/-- Helper: `findSub` selects the first occurrence. -/
lemma findSub_append_of (pat : List Char) :
    ∀ (a b : List Char), hasPre pat b = true →
      (∀ k, k < a.length → hasPre pat (a.drop k ++ b) = false) →
      findSub (a ++ b) pat = some a.length := by
  intro a
  induction a with
  | nil =>
    intro b hb _
    rw [List.nil_append, findSub_eq, if_pos hb]
    rfl
  | cons c cs ih =>
    intro b hb hno
    rw [List.cons_append, findSub_eq]
    have h0 : hasPre pat (c :: (cs ++ b)) = false := by
      have := hno 0 (by simp)
      simpa using this
    rw [if_neg (by simp [h0])]
    have hred : (match c :: (cs ++ b) with
        | [] => none
        | _ :: cs' => Option.map (fun i => i + 1) (findSub cs' pat)) =
        Option.map (fun i => i + 1) (findSub (cs ++ b) pat) := rfl
    rw [hred, ih b hb (fun k hk => by simpa using hno (k + 1) (by simpa using hk))]
    rfl

/-- Helper: a `containsSub`-free string has no occurrence position. -/
lemma hasPre_drop_false_of_not_contains (s pat : List Char)
    (h : containsSub s pat = false) (k : ℕ) (hk : k + pat.length ≤ s.length) :
    hasPre pat (s.drop k) = false := by
  by_contra hc
  rw [Bool.not_eq_false] at hc
  obtain ⟨y, hy⟩ := (hasPre_iff pat _).mp hc
  rw [Bool.eq_false_iff] at h
  apply h
  rw [containsSub_iff]
  have hs : s = s.take k ++ (pat ++ y) := by
    rw [← hy, List.take_append_drop]
  exact ⟨s.take k, y, hs.trans (List.append_assoc _ _ _).symm⟩

/-- Helper: all-whitespace text is skipped entirely. -/
lemma dropWhile_append_all (p : Char → Bool) (w l : List Char) (h : w.all p = true) :
    (w ++ l).dropWhile p = l.dropWhile p := by
  induction w with
  | nil => rfl
  | cons c cs ih =>
    simp only [List.all_cons, Bool.and_eq_true] at h
    simp only [List.cons_append, List.dropWhile_cons_of_pos h.1]
    exact ih h.2

/-- Helper: a string with a non-whitespace head survives `dropWhile`. -/
lemma dropWhile_eq_self_of_head (p : Char → Bool) (s : List Char) (c : Char)
    (hc : s.head? = some c) (hp : p c = false) : s.dropWhile p = s := by
  cases s with
  | nil => simp at hc
  | cons a as =>
    simp only [List.head?_cons, Option.some.injEq] at hc
    rw [hc]
    exact List.dropWhile_cons_of_neg (by simp [hp])

/-- Helper: `strip` is the identity on a string with non-whitespace ends. -/
lemma strip_eq_self (s : List Char) (c d : Char) (hc : s.head? = some c)
    (hpc : isWs c = false) (hd : s.getLast? = some d) (hpd : isWs d = false) :
    strip s = s := by
  unfold strip
  rw [dropWhile_eq_self_of_head isWs s c hc hpc]
  rw [dropWhile_eq_self_of_head isWs s.reverse d (by rw [List.head?_reverse]; exact hd) hpd]
  exact List.reverse_reverse s

/-- Helper: stripping a stripped string with trailing whitespace recovers
it. -/
lemma strip_append_ws (s w : List Char) (c d : Char) (hc : s.head? = some c)
    (hpc : isWs c = false) (hd : s.getLast? = some d) (hpd : isWs d = false)
    (hw : w.all isWs = true) : strip (s ++ w) = s := by
  unfold strip
  rw [dropWhile_eq_self_of_head isWs (s ++ w) c (by
    cases s with
    | nil => simp at hc
    | cons a as => simpa using hc) hpc]
  rw [List.reverse_append]
  rw [dropWhile_append_all isWs w.reverse s.reverse (by simpa using hw)]
  rw [dropWhile_eq_self_of_head isWs s.reverse d (by rw [List.head?_reverse]; exact hd) hpd]
  exact List.reverse_reverse s

/-- Helper: element found by index is a member. -/
lemma mem_of_getElem_opt (l : List Char) (c : Char) (i : ℕ) (h : l[i]? = some c) :
    c ∈ l := by
  have hi : i < l.length := by
    by_contra hge
    rw [List.getElem?_eq_none (by omega)] at h
    exact Option.noConfusion h
  rw [List.getElem?_eq_getElem hi, Option.some.injEq] at h
  rw [← h]
  exact List.getElem_mem hi

/-- Helper: `dropWhile` extension when the scan stops inside the left part. -/
lemma dropWhile_append_ne (p : Char → Bool) (s t : List Char) (c : Char) (r : List Char)
    (h : s.dropWhile p = c :: r) : (s ++ t).dropWhile p = c :: (r ++ t) := by
  rw [List.dropWhile_append, h]
  simp

/-- Helper: `takeWhile` extension when the scan stops inside the left part. -/
lemma takeWhile_append_ne (p : Char → Bool) (s t : List Char) (h : s.dropWhile p ≠ []) :
    (s ++ t).takeWhile p = s.takeWhile p := by
  rw [List.takeWhile_append]
  have hlen : (s.takeWhile p).length ≠ s.length := by
    intro hlen
    apply h
    have hsplit := List.takeWhile_append_dropWhile (p := p) (l := s)
    have htot : (s.takeWhile p).length + (s.dropWhile p).length = s.length := by
      rw [← List.length_append, hsplit]
    have : (s.dropWhile p).length = 0 := by omega
    simpa using this
  simp [hlen]

/-- Helper: the head of a nonempty left part survives an append. -/
lemma head_opt_append (l l2 : List Char) (h : l ≠ []) : (l ++ l2).head? = l.head? := by
  cases l with
  | nil => exact absurd rfl h
  | cons a as => rfl

/-- Helper: whatever `dropWhile` exposes fails the predicate. -/
lemma dropWhile_head_not (p : Char → Bool) (l : List Char) (c : Char)
    (h : (l.dropWhile p).head? = some c) : p c = false := by
  induction l with
  | nil => simp [List.dropWhile] at h
  | cons a as ih =>
    rw [List.dropWhile] at h
    by_cases hp : p a
    · simp only [hp, if_true, ite_true] at h
      exact ih h
    · simp only [hp, if_false, ite_false, List.head?_cons, Option.some.injEq] at h
      rw [← h]
      simpa using hp

/-- Helper: a prefix test fails whenever the heads differ. -/
lemma hasPre_head_ne (p0 : Char) (ps l : List Char) (c : Char) (hc : l.head? = some c)
    (hne : c ≠ p0) : hasPre (p0 :: ps) l = false := by
  cases l with
  | nil => simp at hc
  | cons a as =>
    simp only [List.head?_cons, Option.some.injEq] at hc
    rw [hasPre, hc]
    simp [Ne.symm hne]

/-- Helper: `findSub` success exposes an occurrence at the reported index. -/
lemma findSub_some_hasPre (pat : List Char) :
    ∀ (s : List Char) (i : ℕ), findSub s pat = some i → hasPre pat (s.drop i) = true := by
  intro s
  induction s with
  | nil =>
    intro i h
    rw [findSub_eq] at h
    by_cases hp : hasPre pat [] = true
    · rw [if_pos hp] at h
      cases h
      simpa using hp
    · rw [if_neg hp] at h
      exact Option.noConfusion h
  | cons c cs ih =>
    intro i h
    rw [findSub_eq] at h
    by_cases hp : hasPre pat (c :: cs) = true
    · rw [if_pos hp] at h
      cases h
      simpa using hp
    · rw [if_neg hp] at h
      have h' : Option.map (fun i => i + 1) (findSub cs pat) = some i := h
      cases hfs : findSub cs pat with
      | none => rw [hfs] at h'; exact Option.noConfusion h'
      | some j =>
        rw [hfs] at h'
        simp only [Option.map_some', Option.some.injEq] at h'
        rw [← h']
        simpa using ih j hfs

/-- Helper: a single-character search fails on a string missing it. -/
lemma findSub_single_none (l : List Char) (c : Char) (h : c ∉ l) :
    findSub l [c] = none := by
  induction l with
  | nil =>
    rw [findSub_eq]
    rw [if_neg (by simp [hasPre])]
  | cons a as ih =>
    rw [findSub_eq]
    have hne : hasPre [c] (a :: as) = false := by
      rw [hasPre]
      have : c ≠ a := fun he => h (he ▸ List.mem_cons_self a as)
      simp [this]
    rw [if_neg (by simp [hne])]
    show Option.map (fun i => i + 1) (findSub as [c]) = none
    rw [ih (fun hmem => h (List.mem_cons_of_mem a hmem))]
    rfl

/-- Helper: prefix occurrence of the pattern itself. -/
lemma hasPre_self (pat rest : List Char) : hasPre pat (pat ++ rest) = true :=
  (hasPre_iff pat _).mpr ⟨rest, rfl⟩

/-- Helper: a failed containment means a failed search. -/
lemma findSub_none_of_contains_false (s pat : List Char)
    (h : containsSub s pat = false) : findSub s pat = none := by
  unfold containsSub at h
  cases hf : findSub s pat with
  | none => rfl
  | some i => rw [hf] at h; exact absurd h (by simp)

/-- Helper: one unfolding step of `containsSub`. -/
lemma containsSub_cons (c : Char) (l pat : List Char) :
    containsSub (c :: l) pat = (hasPre pat (c :: l) || containsSub l pat) := by
  unfold containsSub
  rw [findSub_eq]
  by_cases h : hasPre pat (c :: l) = true
  · rw [if_pos h, h]
    simp
  · rw [if_neg h]
    simp only [Bool.not_eq_true] at h
    rw [h]
    show (Option.map (fun i => i + 1) (findSub l pat)).isSome =
      (false || (findSub l pat).isSome)
    cases findSub l pat <;> rfl

/-- Helper: a string missing the pattern head contains no occurrence. -/
lemma containsSub_none_of_head_notin (p0 : Char) (ps : List Char) :
    ∀ (l : List Char), p0 ∉ l → containsSub l (p0 :: ps) = false := by
  intro l
  induction l with
  | nil => intro _; rfl
  | cons c cs ih =>
    intro h
    rw [containsSub_cons]
    have hc : c ≠ p0 := fun he => h (he ▸ List.mem_cons_self c cs)
    rw [hasPre_head_ne p0 ps (c :: cs) c rfl hc,
      ih (fun hm => h (List.mem_cons_of_mem c hm))]
    rfl

/-- Helper: head-mismatch prefix failure, head-option form. -/
lemma hasPre_head_ne_of (pat l : List Char) (p0 c : Char) (hp : pat.head? = some p0)
    (hc : l.head? = some c) (hne : c ≠ p0) : hasPre pat l = false := by
  cases pat with
  | nil => simp at hp
  | cons q qs =>
    simp only [List.head?_cons, Option.some.injEq] at hp
    subst hp
    exact hasPre_head_ne q qs l c hc hne

/-- Helper: a pattern longer than the left part of an append reaches into the
right part, so the right part opens with a pattern character. -/
lemma hasPre_append_split (pat a b : List Char) (hlong : a.length < pat.length)
    (h : hasPre pat (a ++ b) = true) : ∃ ch, b.head? = some ch ∧ ch ∈ pat := by
  obtain ⟨y, hy⟩ := (hasPre_iff pat _).mp h
  have hb : b = pat.drop a.length ++ y := by
    have := congrArg (List.drop a.length) hy
    rwa [List.drop_left, List.drop_append_of_le_length (le_of_lt hlong)] at this
  have hne : pat.drop a.length ≠ [] := by
    intro hnil
    have := congrArg List.length hnil
    simp only [List.length_drop, List.length_nil] at this
    omega
  cases hd : pat.drop a.length with
  | nil => exact absurd hd hne
  | cons ch rest =>
    refine ⟨ch, ?_, ?_⟩
    · rw [hb, hd]; rfl
    · exact List.drop_subset a.length pat (hd ▸ List.mem_cons_self ch rest)

/-- Helper: appending a suffix whose head is not a pattern character and which
does not hold the pattern head creates no occurrence. -/
lemma containsSub_append_right (p0 : Char) (ps : List Char) :
    ∀ (s w2 : List Char), containsSub s (p0 :: ps) = false → p0 ∉ w2 →
      (∀ ch, w2.head? = some ch → ch ∉ p0 :: ps) →
      containsSub (s ++ w2) (p0 :: ps) = false := by
  intro s
  induction s with
  | nil =>
    intro w2 _ h2 _
    simpa using containsSub_none_of_head_notin p0 ps w2 h2
  | cons c cs ih =>
    intro w2 hS h2 h3
    rw [containsSub_cons] at hS
    rw [Bool.or_eq_false_iff] at hS
    rw [List.cons_append, containsSub_cons, Bool.or_eq_false_iff]
    refine ⟨?_, ih w2 hS.2 h2 h3⟩
    by_cases hlen : (p0 :: ps).length ≤ (c :: cs).length
    · rw [show c :: (cs ++ w2) = (c :: cs) ++ w2 from rfl,
        hasPre_of_long (p0 :: ps) (c :: cs) w2 hlen]
      exact hS.1
    · by_contra hcon
      rw [Bool.not_eq_false] at hcon
      obtain ⟨ch, hch, hmem⟩ := hasPre_append_split (p0 :: ps) (c :: cs) w2 (by omega)
        (by rw [← List.cons_append] at hcon; exact hcon)
      exact h3 ch hch hmem

/-- Helper: prepending text missing the pattern head creates no occurrence. -/
lemma containsSub_append_no_head (p0 : Char) (ps : List Char) :
    ∀ (w l : List Char), p0 ∉ w → containsSub l (p0 :: ps) = false →
      containsSub (w ++ l) (p0 :: ps) = false := by
  intro w
  induction w with
  | nil => intro l _ h; simpa using h
  | cons c cs ih =>
    intro l hw h
    rw [List.cons_append, containsSub_cons, Bool.or_eq_false_iff]
    have hc : c ≠ p0 := fun he => hw (he ▸ List.mem_cons_self c cs)
    exact ⟨hasPre_head_ne p0 ps _ c rfl hc,
      ih l (fun hm => hw (List.mem_cons_of_mem c hm)) h⟩

/-- Helper: candidates that all fall through produce no outcome. -/
lemma tryCandidates_of_all_none :
    ∀ (l : List (List Char)), (∀ c ∈ l, tryCandidate c = none) →
      tryCandidates l = none := by
  intro l
  induction l with
  | nil => intro _; rfl
  | cons c cs ih =>
    intro h
    rw [tryCandidates, h c (List.mem_cons_self c cs)]
    exact ih (fun d hd => h d (List.mem_cons_of_mem c hd))

/-- Helper: the first candidate that yields an outcome decides the parse. -/
lemma tryCandidates_of_first (o : ParseOutcome) :
    ∀ (pre : List (List Char)) (c : List Char) (post : List (List Char)),
      (∀ d ∈ pre, tryCandidate d = none) → tryCandidate c = some o →
      tryCandidates (pre ++ c :: post) = some o := by
  intro pre
  induction pre with
  | nil =>
    intro c post _ hc
    rw [List.nil_append, tryCandidates, hc]
  | cons d ds ih =>
    intro c post hpre hc
    rw [List.cons_append, tryCandidates, hpre d (List.mem_cons_self d ds)]
    exact ih c post (fun e he => hpre e (List.mem_cons_of_mem d he)) hc

/-- Helper: a valid decision JSON is accepted by a single candidate try. -/
lemma tryCandidate_of_decode (s : List Char) (resp : LLMResponse)
    (h : decodeDecision s = some resp) :
    tryCandidate s = some (ParseOutcome.ok resp) := by
  unfold decodeDecision at h
  cases hjl : jsonLoads s with
  | none =>
    rw [hjl] at h
    exact Option.noConfusion (show (none : Option LLMResponse) = some resp from h)
  | some j =>
    rw [hjl] at h
    cases j with
    | obj kvs =>
      have h' : validateResponse kvs = some resp := h
      unfold tryCandidate
      rw [hjl]
      show (match validateResponse kvs with
        | some r => some (ParseOutcome.ok r)
        | none => none) = some (ParseOutcome.ok resp)
      rw [h']
    | null => exact Option.noConfusion (show (none : Option LLMResponse) = some resp from h)
    | bool b => exact Option.noConfusion (show (none : Option LLMResponse) = some resp from h)
    | num q => exact Option.noConfusion (show (none : Option LLMResponse) = some resp from h)
    | str t => exact Option.noConfusion (show (none : Option LLMResponse) = some resp from h)
    | arr vs => exact Option.noConfusion (show (none : Option LLMResponse) = some resp from h)

/-- Helper: one unfolding step of the code-block scan. -/
lemma codeBlock_step (n : ℕ) (s : List Char) :
    codeBlockCandidates (n + 1) s = match findSub s fenceMarker with
      | none => []
      | some i =>
        let after := s.drop (i + 3)
        let afterTag := if hasPre ("json".toList) after then after.drop 4 else after
        let afterWs := afterTag.dropWhile isWs
        match findSub afterWs fenceMarker with
        | none => []
        | some j => strip (afterWs.take j) :: codeBlockCandidates n (afterWs.drop (j + 3)) :=
  rfl

/-- Helper: without an opening fence there is no code block. -/
lemma codeBlock_none (fuel : ℕ) (s : List Char) (h : findSub s fenceMarker = none) :
    codeBlockCandidates fuel s = [] := by
  cases fuel with
  | zero => rfl
  | succ n => rw [codeBlock_step, h]

/-- Helper: starting inside backquote-free text, no fence prefix appears. -/
lemma no_bq_hasPre (a b : List Char) (k : ℕ) (hk : k < a.length)
    (ha : ∀ c ∈ a, c ≠ '\x60') :
    hasPre fenceMarker (a.drop k ++ b) = false := by
  have hlt : k < a.length := hk
  have hne : a.drop k ≠ [] := by
    intro hnil
    have := congrArg List.length hnil
    simp only [List.length_drop, List.length_nil] at this
    omega
  refine hasPre_head_ne_of fenceMarker _ '\x60' (a[k]) (by decide) ?_ ?_
  · rw [head_opt_append _ _ hne, List.head?_drop, List.getElem?_eq_getElem hlt]
  · exact ha _ (List.getElem_mem hlt)

/-- Helper: a single-character search hits at the head. -/
lemma findSub_single_head (l : List Char) (c : Char) (h : l.head? = some c) :
    findSub l [c] = some 0 := by
  cases l with
  | nil => simp at h
  | cons a as =>
    simp only [List.head?_cons, Option.some.injEq] at h
    subst h
    have hp : hasPre [a] (a :: as) = true := by simp [hasPre]
    rw [findSub_eq, if_pos hp]

/-- Helper: `find` of the head character. -/
lemma firstCharIdx_head (S : List Char) (c : Char) (hh : S.head? = some c) :
    firstCharIdx S c = some 0 := by
  unfold firstCharIdx
  exact findSub_single_head S c hh

/-- Helper: `rfind` of the last character. -/
lemma lastCharIdx_last (S : List Char) (c : Char) (hl : S.getLast? = some c) :
    lastCharIdx S c = some (S.length - 1) := by
  unfold lastCharIdx
  rw [findSub_single_head S.reverse c (by rw [List.head?_reverse]; exact hl)]
  rfl

/-- Helper: the full-width inclusive slice is the whole string. -/
lemma sliceIncl_all (S : List Char) (hne : S ≠ []) :
    sliceIncl S 0 (S.length - 1) = S := by
  unfold sliceIncl
  rw [List.drop_zero]
  have hpos : 0 < S.length := List.length_pos.mpr hne
  have h : S.length - 1 + 1 - 0 = S.length := by omega
  rw [h, List.take_length]

/-- Helper: nonemptiness and a two-character lower bound for a braced
string. -/
lemma braced_ends (S : List Char) (hh : S.head? = some '\x7b')
    (hl : S.getLast? = some '\x7d') : S ≠ [] ∧ 2 ≤ S.length := by
  rcases S with _ | ⟨a, _ | ⟨b, t⟩⟩
  · simp at hh
  · exfalso
    simp only [List.head?_cons, Option.some.injEq] at hh
    simp only [List.getLast?_singleton, Option.some.injEq] at hl
    rw [hh] at hl
    exact absurd hl (by decide)
  · refine ⟨by simp, ?_⟩
    simp only [List.length_cons]
    omega

/-- Helper: the brace strategy on a braced string returns it whole. -/
lemma braceCandidate_self (S : List Char) (hh : S.head? = some '\x7b')
    (hl : S.getLast? = some '\x7d') : braceCandidate S = some S := by
  obtain ⟨hne, h2⟩ := braced_ends S hh hl
  unfold braceCandidate
  rw [firstCharIdx_head S _ hh, lastCharIdx_last S _ hl]
  show (if 0 < S.length - 1 then some (sliceIncl S 0 (S.length - 1)) else none) = some S
  rw [if_pos (by omega), sliceIncl_all S hne]

/-- Helper: with no `[Response]` marker the section strategy yields
nothing. -/
lemma respSectionCandidate_none (t : List Char)
    (h : containsSub t respMarker = false) : respSectionCandidate t = none := by
  unfold respSectionCandidate
  rw [findSub_none_of_contains_false t respMarker h]

/-- Helper: the code-block step once the opening fence index is known. -/
lemma codeBlock_step_found (n : ℕ) (s : List Char) (i : ℕ)
    (h : findSub s fenceMarker = some i) :
    codeBlockCandidates (n + 1) s =
      (let after := s.drop (i + 3)
       let afterTag := if hasPre ("json".toList) after then after.drop 4 else after
       let afterWs := afterTag.dropWhile isWs
       match findSub afterWs fenceMarker with
       | none => []
       | some j =>
         strip (afterWs.take j) :: codeBlockCandidates n (afterWs.drop (j + 3))) := by
  rw [codeBlock_step, h]

/-- Helper: scanning a backquote-free braced payload after a fence opener
finds the closing fence right past the payload and extracts it whole. -/
lemma codeBlock_inner (S rest2 : List Char) (n : ℕ) (hS : S ≠ [])
    (hh : S.head? = some '\x7b') (hl : S.getLast? = some '\x7d')
    (hnb : ∀ c ∈ S, c ≠ '\x60')
    (hrest : findSub rest2 fenceMarker = none) :
    findSub (S ++ ('\n' :: (fenceMarker ++ rest2))) fenceMarker =
      some (S.length + 1) ∧
    strip ((S ++ ('\n' :: (fenceMarker ++ rest2))).take (S.length + 1)) = S ∧
    codeBlockCandidates n
      ((S ++ ('\n' :: (fenceMarker ++ rest2))).drop (S.length + 1 + 3)) = [] := by
  have hsplit : S ++ ('\n' :: (fenceMarker ++ rest2)) =
      (S ++ ['\n']) ++ (fenceMarker ++ rest2) := by
    rw [List.append_assoc]
    rfl
  have hlen1 : (S ++ ['\n']).length = S.length + 1 := by simp
  have hall : ∀ c ∈ S ++ ['\n'], c ≠ '\x60' := by
    intro c hc
    rcases List.mem_append.mp hc with h1 | h1
    · exact hnb c h1
    · simp only [List.mem_singleton] at h1
      subst h1
      decide
  refine ⟨?_, ?_, ?_⟩
  · rw [hsplit, findSub_append_of fenceMarker (S ++ ['\n']) (fenceMarker ++ rest2)
      (hasPre_self fenceMarker rest2)
      (fun k hk => no_bq_hasPre (S ++ ['\n']) (fenceMarker ++ rest2) k hk hall), hlen1]
  · rw [hsplit, ← hlen1, List.take_left, strip_append_ws S ['\n'] '\x7b' '\x7d'
      hh (by decide) hl (by decide) (by decide)]
  · have hd : ((S ++ ['\n']) ++ (fenceMarker ++ rest2)).drop (S.length + 1 + 3) =
        rest2 := by
      rw [← hlen1, List.drop_append]
      exact (List.drop_left fenceMarker rest2 : (fenceMarker ++ rest2).drop 3 = rest2)
    rw [hsplit, hd]
    exact codeBlock_none n rest2 hrest

/-- Helper: the code-block strategy on a ```json fenced wrap extracts
exactly the payload. -/
lemma codeBlocks_jsonFence (S : List Char) (n : ℕ) (hS : S ≠ [])
    (hh : S.head? = some '\x7b') (hl : S.getLast? = some '\x7d')
    (hnb : ∀ c ∈ S, c ≠ '\x60') :
    codeBlockCandidates (n + 1) (jsonFenceWrap S) = [S] := by
  obtain ⟨hA, hB, hC⟩ := codeBlock_inner S [] n hS hh hl hnb rfl
  have hp : hasPre fenceMarker (jsonFenceWrap S) = true := rfl
  have h0 : findSub (jsonFenceWrap S) fenceMarker = some 0 := by
    rw [findSub_eq, if_pos hp]
  have hj : hasPre ("json".toList) ((jsonFenceWrap S).drop (0 + 3)) = true := rfl
  have hdrop4 : ((jsonFenceWrap S).drop (0 + 3)).drop 4 =
      '\n' :: (S ++ "\n```".toList) := rfl
  have hAT : (if hasPre ("json".toList) ((jsonFenceWrap S).drop (0 + 3))
      then ((jsonFenceWrap S).drop (0 + 3)).drop 4
      else (jsonFenceWrap S).drop (0 + 3)) = '\n' :: (S ++ "\n```".toList) := by
    rw [if_pos hj]
    exact hdrop4
  have hAW : ('\n' :: (S ++ "\n```".toList)).dropWhile isWs =
      S ++ ('\n' :: (fenceMarker ++ [])) := by
    rw [List.dropWhile_cons_of_pos (by decide)]
    rw [dropWhile_eq_self_of_head isWs (S ++ "\n```".toList) '\x7b'
      (by rw [head_opt_append _ _ hS]; exact hh) (by decide)]
    rw [show ("\n```".toList : List Char) = '\n' :: (fenceMarker ++ []) from by decide]
  rw [codeBlock_step_found n (jsonFenceWrap S) 0 h0]
  simp only [hAT, hAW, hA, hB, hC]

/-- Helper: the code-block strategy on a plain fenced wrap surrounded by
prose extracts exactly the payload. -/
lemma codeBlocks_plainFence (S : List Char) (n : ℕ) (hS : S ≠ [])
    (hh : S.head? = some '\x7b') (hl : S.getLast? = some '\x7d')
    (hnb : ∀ c ∈ S, c ≠ '\x60') :
    codeBlockCandidates (n + 1) (plainFenceWrap S) = [S] := by
  obtain ⟨hA, hB, hC⟩ := codeBlock_inner S ("\nmore".toList) n hS hh hl hnb (by decide)
  have hW3 : plainFenceWrap S =
      "prose\n".toList ++ (("```\n".toList ++ S) ++ "\n```\nmore".toList) := by
    unfold plainFenceWrap
    rw [show ("prose\n```\n".toList : List Char) = "prose\n".toList ++ "```\n".toList
      from by decide]
    simp [List.append_assoc]
  have h0 : findSub (plainFenceWrap S) fenceMarker = some 6 := by
    rw [hW3, findSub_append_of fenceMarker ("prose\n".toList)
      (("```\n".toList ++ S) ++ "\n```\nmore".toList) rfl
      (fun k hk => no_bq_hasPre ("prose\n".toList) _ k hk (by decide))]
    rfl
  have hj : hasPre ("json".toList) ((plainFenceWrap S).drop (6 + 3)) = false := rfl
  have hAT : (if hasPre ("json".toList) ((plainFenceWrap S).drop (6 + 3))
      then ((plainFenceWrap S).drop (6 + 3)).drop 4
      else (plainFenceWrap S).drop (6 + 3)) = '\n' :: (S ++ "\n```\nmore".toList) := by
    rw [if_neg (by rw [hj]; exact Bool.false_ne_true)]
    rfl
  have hAW : ('\n' :: (S ++ "\n```\nmore".toList)).dropWhile isWs =
      S ++ ('\n' :: (fenceMarker ++ "\nmore".toList)) := by
    rw [List.dropWhile_cons_of_pos (by decide)]
    rw [dropWhile_eq_self_of_head isWs (S ++ "\n```\nmore".toList) '\x7b'
      (by rw [head_opt_append _ _ hS]; exact hh) (by decide)]
    rw [show ("\n```\nmore".toList : List Char) =
      '\n' :: (fenceMarker ++ "\nmore".toList) from by decide]
  rw [codeBlock_step_found n (plainFenceWrap S) 6 h0]
  simp only [hAT, hAW, hA, hB, hC]

/-- Helper: heads of a suffix block pattern membership pointwise. -/
lemma head_notin_of (w : List Char) (c0 : Char) (hw : w.head? = some c0)
    (h : c0 ∉ respMarker) : ∀ ch, w.head? = some ch → ch ∉ respMarker := by
  intro ch hch
  rw [hw] at hch
  injection hch with h1
  rwa [← h1]

/-- Helper: the `[Response]` marker does not appear across a wrap whose
affixes are bracket-free and whose suffix opens with a non-marker
character. -/
lemma containsSub_wrap_respMarker (w1 S w2 : List Char)
    (h1 : '[' ∉ w1) (h2 : '[' ∉ w2)
    (h3 : ∀ ch, w2.head? = some ch → ch ∉ respMarker)
    (hnm : containsSub S respMarker = false) :
    containsSub (w1 ++ (S ++ w2)) respMarker = false := by
  have hm : respMarker = '[' :: "Response]".toList := by decide
  rw [hm] at hnm h3 ⊢
  exact containsSub_append_no_head '[' _ w1 (S ++ w2) h1
    (containsSub_append_right '[' _ S w2 hnm h2 h3)

/-- Helper: the `[Response]` section of a reasoning-wrapped braced payload
free of a newline-bracket pair is the payload itself. -/
lemma respSection_reasoningWrap (S : List Char)
    (hh : S.head? = some '\x7b') (hl : S.getLast? = some '\x7d')
    (hn1 : containsSub S ('\n' :: ['[']) = false) :
    respSectionCandidate (reasoningWrap S) = some S := by
  obtain ⟨hne, h2⟩ := braced_ends S hh hl
  have hsplit : reasoningWrap S =
      "[Reasoning]\n...\n".toList ++ ("[Response]\n".toList ++ S) := by
    unfold reasoningWrap
    rw [show ("[Reasoning]\n...\n[Response]\n".toList : List Char) =
      "[Reasoning]\n...\n".toList ++ "[Response]\n".toList from by decide]
    simp [List.append_assoc]
  have hb : hasPre respMarker ("[Response]\n".toList ++ S) = true := rfl
  have hno : ∀ k, k < ("[Reasoning]\n...\n".toList).length →
      hasPre respMarker (("[Reasoning]\n...\n".toList).drop k ++
        ("[Response]\n".toList ++ S)) = false := by
    intro k hk
    have hk16 : k < 16 := by simpa using hk
    interval_cases k <;>
      first
        | (rw [hasPre_of_long] <;> decide)
        | (refine hasPre_head_ne_of respMarker _ '[' _ (by decide) rfl ?_; decide)
  have hfind : findSub (reasoningWrap S) respMarker = some 16 := by
    rw [hsplit, findSub_append_of respMarker _ _ hb hno]
    rfl
  have hdrop : ((reasoningWrap S).drop (16 + respMarker.length)).dropWhile isWs =
      S := by
    rw [show (reasoningWrap S).drop (16 + respMarker.length) = '\n' :: S from rfl]
    rw [List.dropWhile_cons_of_pos (by decide)]
    exact dropWhile_eq_self_of_head isWs S '\x7b' hh (by decide)
  have hsec : findSub S ('\n' :: ['[']) = none :=
    findSub_none_of_contains_false _ _ hn1
  unfold respSectionCandidate
  rw [hfind]
  simp only [hdrop, hsec, strip_eq_self S '\x7b' '\x7d' hh (by decide) hl (by decide),
    firstCharIdx_head S '\x7b' hh, lastCharIdx_last S '\x7d' hl, sliceIncl_all S hne]

/-- Helper: the parse returns the decision decoded from the first
extraction candidate. -/
lemma parse_of_first (txt S : List Char) (resp : LLMResponse)
    (hdec : decodeDecision S = some resp)
    (hc : (strategyCandidates (strip txt)).head? = some S) :
    parse_llm_response txt = ParseOutcome.ok resp := by
  cases hsc : strategyCandidates (strip txt) with
  | nil => rw [hsc] at hc; exact Option.noConfusion hc
  | cons c cs =>
    rw [hsc] at hc
    injection hc with hc
    subst hc
    unfold parse_llm_response
    rw [hsc, tryCandidates, tryCandidate_of_decode _ resp hdec]

/-- Helper: bare acceptance of a clean valid decision JSON. -/
lemma parse_llm_response_bare (S : List Char) (resp : LLMResponse)
    (hdec : decodeDecision S = some resp)
    (hnm : containsSub S respMarker = false)
    (hnb : ∀ c ∈ S, c ≠ '\x60')
    (hh : S.head? = some '\x7b') (hl : S.getLast? = some '\x7d') :
    parse_llm_response S = ParseOutcome.ok resp := by
  have hfence : findSub S fenceMarker = none := by
    have hf : fenceMarker = '\x60' :: ['\x60', '\x60'] := by decide
    refine findSub_none_of_contains_false _ _ ?_
    rw [hf]
    exact containsSub_none_of_head_notin '\x60' _ S (fun hm => hnb _ hm rfl)
  refine parse_of_first S S resp hdec ?_
  rw [strip_eq_self S '\x7b' '\x7d' hh (by decide) hl (by decide)]
  unfold strategyCandidates
  rw [respSectionCandidate_none S hnm, codeBlock_none S.length S hfence,
    braceCandidate_self S hh hl]
  rfl

/-- Helper: acceptance of a clean valid decision JSON under a ```json
fence. -/
lemma parse_llm_response_jsonFence (S : List Char) (resp : LLMResponse)
    (hdec : decodeDecision S = some resp)
    (hnm : containsSub S respMarker = false)
    (hnb : ∀ c ∈ S, c ≠ '\x60')
    (hh : S.head? = some '\x7b') (hl : S.getLast? = some '\x7d') :
    parse_llm_response (jsonFenceWrap S) = ParseOutcome.ok resp := by
  obtain ⟨hne, h2⟩ := braced_ends S hh hl
  have hlast : (jsonFenceWrap S).getLast? = some '\x60' := by
    unfold jsonFenceWrap
    rw [List.getLast?_append_of_ne_nil _ (by decide)]
    decide
  have hstrip : strip (jsonFenceWrap S) = jsonFenceWrap S :=
    strip_eq_self _ '\x60' '\x60' rfl (by decide) hlast (by decide)
  have hresp : respSectionCandidate (jsonFenceWrap S) = none := by
    refine respSectionCandidate_none _ ?_
    rw [show jsonFenceWrap S = "```json\n".toList ++ (S ++ "\n```".toList) from by
      unfold jsonFenceWrap; rw [List.append_assoc]]
    exact containsSub_wrap_respMarker _ _ _ (by decide) (by decide)
      (head_notin_of _ '\n' rfl (by decide)) hnm
  have hlen : (jsonFenceWrap S).length = (S.length + 11) + 1 := by
    unfold jsonFenceWrap
    rw [List.length_append, List.length_append,
      show ("```json\n".toList : List Char).length = 8 from rfl,
      show ("\n```".toList : List Char).length = 4 from rfl]
    omega
  have hcode : codeBlockCandidates (jsonFenceWrap S).length (jsonFenceWrap S) =
      [S] := by
    rw [hlen]
    exact codeBlocks_jsonFence S (S.length + 11) hne hh hl hnb
  refine parse_of_first _ S resp hdec ?_
  rw [hstrip]
  unfold strategyCandidates
  rw [hresp, hcode]
  rfl

/-- Helper: acceptance of a clean valid decision JSON under a plain fence
surrounded by prose. -/
lemma parse_llm_response_plainFence (S : List Char) (resp : LLMResponse)
    (hdec : decodeDecision S = some resp)
    (hnm : containsSub S respMarker = false)
    (hnb : ∀ c ∈ S, c ≠ '\x60')
    (hh : S.head? = some '\x7b') (hl : S.getLast? = some '\x7d') :
    parse_llm_response (plainFenceWrap S) = ParseOutcome.ok resp := by
  obtain ⟨hne, h2⟩ := braced_ends S hh hl
  have hlast : (plainFenceWrap S).getLast? = some 'e' := by
    unfold plainFenceWrap
    rw [List.getLast?_append_of_ne_nil _ (by decide)]
    decide
  have hstrip : strip (plainFenceWrap S) = plainFenceWrap S :=
    strip_eq_self _ 'p' 'e' rfl (by decide) hlast (by decide)
  have hresp : respSectionCandidate (plainFenceWrap S) = none := by
    refine respSectionCandidate_none _ ?_
    rw [show plainFenceWrap S = "prose\n```\n".toList ++ (S ++ "\n```\nmore".toList)
      from by unfold plainFenceWrap; rw [List.append_assoc]]
    exact containsSub_wrap_respMarker _ _ _ (by decide) (by decide)
      (head_notin_of _ '\n' rfl (by decide)) hnm
  have hlen : (plainFenceWrap S).length = (S.length + 18) + 1 := by
    unfold plainFenceWrap
    rw [List.length_append, List.length_append,
      show ("prose\n```\n".toList : List Char).length = 10 from rfl,
      show ("\n```\nmore".toList : List Char).length = 9 from rfl]
    omega
  have hcode : codeBlockCandidates (plainFenceWrap S).length (plainFenceWrap S) =
      [S] := by
    rw [hlen]
    exact codeBlocks_plainFence S (S.length + 18) hne hh hl hnb
  refine parse_of_first _ S resp hdec ?_
  rw [hstrip]
  unfold strategyCandidates
  rw [hresp, hcode]
  rfl

/-- Helper: acceptance of a clean valid decision JSON under a reasoning
section and a `[Response]` header. -/
lemma parse_llm_response_reasoning (S : List Char) (resp : LLMResponse)
    (hdec : decodeDecision S = some resp)
    (hn1 : containsSub S ('\n' :: ['[']) = false)
    (hh : S.head? = some '\x7b') (hl : S.getLast? = some '\x7d') :
    parse_llm_response (reasoningWrap S) = ParseOutcome.ok resp := by
  obtain ⟨hne, h2⟩ := braced_ends S hh hl
  have hlast : (reasoningWrap S).getLast? = some '\x7d' := by
    unfold reasoningWrap
    rw [List.getLast?_append_of_ne_nil _ hne]
    exact hl
  have hstrip : strip (reasoningWrap S) = reasoningWrap S :=
    strip_eq_self _ '[' '\x7d' rfl (by decide) hlast (by decide)
  refine parse_of_first _ S resp hdec ?_
  rw [hstrip]
  unfold strategyCandidates
  rw [respSection_reasoningWrap S hh hl hn1]
  rfl

/-- A clean valid decision JSON: braced, marker-free, fence-free. -/
def cleanDecisionJson : List Char :=
  ("\x7b\"decision\": \"hold\", \"reasoning\": \"ok\"\x7d").toList

/-- What `cleanDecisionJson` decodes to. -/
def cleanDecisionResp : LLMResponse :=
  { decision := "hold".toList
    reasoning := "ok".toList
    confidence := none
    orders := [] }

/-- C8 (amended): for every string S that is a valid decision JSON starting
with a left brace, ending with a right brace, and containing no backquote,
no `[Response]` marker, and no newline followed by `[`, the parser returns
the decoded decision for S itself, for S in a ```json fence, for S in a
plain fence surrounded by prose, and for S under a `[Reasoning]` section
and a `[Response]` header; moreover the parser resolves the ordered
strategy candidates first-match-wins and fails when every candidate falls
through. -/
theorem parse_llm_response_spec (S : List Char) (resp : LLMResponse)
    (hdec : decodeDecision S = some resp)
    (hnm : containsSub S respMarker = false)
    (hnb : ∀ c ∈ S, c ≠ '\x60')
    (hn1 : containsSub S ('\n' :: ['[']) = false)
    (hh : S.head? = some '\x7b')
    (hl : S.getLast? = some '\x7d') :
    parse_llm_response S = ParseOutcome.ok resp ∧
    parse_llm_response (jsonFenceWrap S) = ParseOutcome.ok resp ∧
    parse_llm_response (plainFenceWrap S) = ParseOutcome.ok resp ∧
    parse_llm_response (reasoningWrap S) = ParseOutcome.ok resp ∧
    (∀ txt : List Char,
      (∀ c ∈ strategyCandidates (strip txt), tryCandidate c = none) →
      parse_llm_response txt = ParseOutcome.fail) ∧
    (∀ (txt cand : List Char) (pre post : List (List Char)) (o : ParseOutcome),
      strategyCandidates (strip txt) = pre ++ cand :: post →
      (∀ d ∈ pre, tryCandidate d = none) → tryCandidate cand = some o →
      parse_llm_response txt = o) := by
  refine ⟨parse_llm_response_bare S resp hdec hnm hnb hh hl,
    parse_llm_response_jsonFence S resp hdec hnm hnb hh hl,
    parse_llm_response_plainFence S resp hdec hnm hnb hh hl,
    parse_llm_response_reasoning S resp hdec hn1 hh hl, ?_, ?_⟩
  · intro txt hall
    unfold parse_llm_response
    rw [tryCandidates_of_all_none _ hall]
  · intro txt cand pre post o hlist hpre ho
    unfold parse_llm_response
    rw [hlist, tryCandidates_of_first o pre cand post hpre ho]

set_option maxRecDepth 10000 in
/-- Witness for C8: the clean hold decision is decoded identically in all
four forms. -/
theorem parse_llm_response_spec_witness :
    (decodeDecision cleanDecisionJson = some cleanDecisionResp ∧
      containsSub cleanDecisionJson respMarker = false ∧
      cleanDecisionJson.head? = some '\x7b' ∧
      cleanDecisionJson.getLast? = some '\x7d') ∧
    parse_llm_response cleanDecisionJson = ParseOutcome.ok cleanDecisionResp ∧
    parse_llm_response (jsonFenceWrap cleanDecisionJson) =
      ParseOutcome.ok cleanDecisionResp ∧
    parse_llm_response (plainFenceWrap cleanDecisionJson) =
      ParseOutcome.ok cleanDecisionResp ∧
    parse_llm_response (reasoningWrap cleanDecisionJson) =
      ParseOutcome.ok cleanDecisionResp := by
  have h := parse_llm_response_spec cleanDecisionJson cleanDecisionResp
    (by rfl) (by rfl) (by decide) (by rfl) (by rfl) (by rfl)
  exact ⟨⟨by rfl, by rfl, by rfl, by rfl⟩, h.1, h.2.1, h.2.2.1, h.2.2.2.1⟩

end Gauntlet
